import Mathlib

/-!
Verification of the zelkel-compiler front end (src/parser.rs).

The development shallowly embeds the parser: every Rust function becomes a
Lean function of the same name, operating on a `List Token`.  Rust `Result`
failure, Rust panics (out-of-bounds indexing, `Option::unwrap` on `None`,
`todo!`) and the fuel used to make the embedding structurally recursive are
the three constructors of `POut`; a panic aborts the whole parse exactly as
an error does (nothing in the source catches either), so both propagate
through the same `Except` channel but stay distinguishable.

The expression parser in the source is a cycle of mutually recursive
functions (a parenthesized primary re-enters the whole expression grammar),
so the five layers and their three `while` loops are packaged as the fields
of `ExprParsers`, built by plain structural recursion on the fuel; each call
in the source consumes one unit of fuel.  This keeps every definition
computable by the kernel, and the termination theorem shows the chosen
initial fuel is never exhausted.
-/

/-- Source position of a token.  Modelled from the spec: the lexer
(`src/lexer.rs`, not under src/) attaches a line/column position to every
token; the parser only copies positions into errors and statements. -/
structure TokenPos where
  line : Nat
  col : Nat
deriving DecidableEq, Repr

/-- Value of a token.  Modelled from the spec: the lexer tags each token
with one of Identifier, String, Integer, Float, Bool, Arithmetic(symbol),
Punctuation(symbol) or Nested.  The float payload is kept as its lexeme
text; the parser never inspects it. -/
inductive TokenValue where
  | identifier (s : String)
  | string (s : String)
  | integer (n : Int)
  | float (s : String)
  | bool (b : Bool)
  | arithmetic (s : String)
  | punctuation (s : String)
  | nested
deriving DecidableEq, Repr

/-- A positioned token, as consumed by the parser. -/
structure Token where
  value : TokenValue
  pos : TokenPos
deriving DecidableEq, Repr

/-- The closed set of value types (parser.rs, `ValueType`). -/
inductive ValueType where
  | integer
  | float
  | string
  | bool
deriving DecidableEq, Repr

/-- Outcome channel of the embedding: `err` is a Rust `Err(error(msg, pos))`
(Modelled from the spec: the repository error helper `crate::error`, not
under src/, pairs a message with the offending position); `crash` is a Rust
panic (out-of-bounds index, `unwrap` of `None`, `todo!`); `fuelOut` is the
embedding fuel running dry, which the termination theorem rules out for the
fuel `parse` supplies. -/
inductive POut where
  | err (msg : String) (pos : TokenPos)
  | crash (msg : String)
  | fuelOut
deriving DecidableEq, Repr

mutual

/-- Expression node (parser.rs, `Expression`). -/
inductive Expression where
  | mk (kind : ExpressionKind) (typ : ValueType)

/-- Tagged expression variant (parser.rs, `ExpressionKind`). -/
inductive ExpressionKind where
  | primary (p : PrimaryExpression)
  | unary (u : UnaryExpression)
  | term (t : TermExpression)
  | comparison (c : ComparisonExpression)
  | binary (b : BinaryExpression)

/-- Primary-layer node (parser.rs, `PrimaryExpression`). -/
inductive PrimaryExpression where
  | mk (value : TokenValue) (typ : ValueType) (nested : Option Expression)

/-- Unary-layer node (parser.rs, `UnaryExpression`). -/
inductive UnaryExpression where
  | mk (left : PrimaryExpression) (typ : ValueType) (op : Option Token)

/-- Term-layer node (parser.rs, `TermExpression`; field order as declared
in the source: right, left, typ, op). -/
inductive TermExpression where
  | mk (right : Option UnaryExpression) (left : Option UnaryExpression)
      (typ : ValueType) (op : Option Token)

/-- Comparison-layer node (parser.rs, `ComparisonExpression`). -/
inductive ComparisonExpression where
  | mk (right : Option TermExpression) (left : Option TermExpression)
      (typ : ValueType) (op : Option Token)

/-- Additive-layer node (parser.rs, `BinaryExpression`). -/
inductive BinaryExpression where
  | mk (right : Option ComparisonExpression) (left : Option ComparisonExpression)
      (typ : ValueType) (op : Option Token)

end

/-- Type of an expression node. -/
def Expression.typ : Expression → ValueType
  | .mk _ t => t

/-- Kind of an expression node. -/
def Expression.kind : Expression → ExpressionKind
  | .mk k _ => k

/-- Type of a primary node. -/
def PrimaryExpression.typ : PrimaryExpression → ValueType
  | .mk _ t _ => t

/-- Left operand of a unary node. -/
def UnaryExpression.left : UnaryExpression → PrimaryExpression
  | .mk l _ _ => l

/-- Type of a unary node. -/
def UnaryExpression.typ : UnaryExpression → ValueType
  | .mk _ t _ => t

/-- Type of a term node. -/
def TermExpression.typ : TermExpression → ValueType
  | .mk _ _ t _ => t

/-- Left operand of a term node. -/
def TermExpression.left : TermExpression → Option UnaryExpression
  | .mk _ l _ _ => l

/-- Type of a comparison node. -/
def ComparisonExpression.typ : ComparisonExpression → ValueType
  | .mk _ _ t _ => t

/-- Left operand of a comparison node. -/
def ComparisonExpression.left : ComparisonExpression → Option TermExpression
  | .mk _ l _ _ => l

/-- Type of an additive (binary) node. -/
def BinaryExpression.typ : BinaryExpression → ValueType
  | .mk _ _ t _ => t

/-- Left operand of an additive node. -/
def BinaryExpression.left : BinaryExpression → Option ComparisonExpression
  | .mk _ l _ _ => l

/-- Right operand of an additive node. -/
def BinaryExpression.right : BinaryExpression → Option ComparisonExpression
  | .mk r _ _ _ => r

mutual

/-- Statement node (parser.rs, `Statement`). -/
inductive Statement where
  | mk (kind : StatementKind) (pos : TokenPos)

/-- Tagged statement variant (parser.rs, `StatementKind`). -/
inductive StatementKind where
  | variableDeclaration (v : VariableDeclaration)
  | functionDeclaration (f : FunctionDeclaration)
  | expressionStatement (e : ExpressionStatement)

/-- Variable declaration payload (parser.rs, `VariableDeclaration`). -/
inductive VariableDeclaration where
  | mk (name : String) (typ : ValueType) (expr : Expression)

/-- Function declaration payload (parser.rs, `FunctionDeclaration`); never
constructed, the body parser is a `todo!` stub. -/
inductive FunctionDeclaration where
  | mk (name : String) (typ : ValueType) (args : List VariableDeclaration)
      (body : List Statement)

/-- Expression statement payload (parser.rs, `ExpressionStatement`). -/
inductive ExpressionStatement where
  | mk (typ : ValueType) (expr : Expression)

end

/-- Kind of a statement. -/
def Statement.kind : Statement → StatementKind
  | .mk k _ => k

/-- Position of a statement. -/
def Statement.pos : Statement → TokenPos
  | .mk _ p => p

/-- Declared contract of a name in a scope (parser.rs, `VariableOptions`). -/
structure VariableOptions where
  mutable : Bool
  typ : ValueType
deriving DecidableEq, Repr

/-- Lexical scope (parser.rs, `Scope`).  The source `HashMap` is embedded as
an association list: the parser only tests key membership and inserts keys
that the test just found absent, and for those two operations the map and
the list agree.  The source names the first field `variables`, a reserved
word here, hence `vars`. -/
structure Scope where
  vars : List (String × VariableOptions)
  functions : List String
deriving DecidableEq, Repr

/-- Lookup in the token stream; `none` is an out-of-bounds access. -/
def tokAt : List Token → Nat → Option Token
  | [], _ => none
  | t :: _, 0 => some t
  | _ :: rest, n + 1 => tokAt rest n

/-- Insertion into the embedded variable map (Rust `HashMap::insert`; the
parser only ever inserts a key it just checked to be absent, for which
insertion and appending agree up to map equality). -/
def insertVariable (m : List (String × VariableOptions)) (k : String)
    (v : VariableOptions) : List (String × VariableOptions) :=
  m ++ [(k, v)]

/-- Replacement of the last element (Rust `last_mut` assignment). -/
def setLast : List Scope → Scope → List Scope
  | [], _ => []
  | [_], s => [s]
  | a :: b :: rest, s => a :: setLast (b :: rest) s

/-- Crash message for Rust out-of-bounds slice indexing. -/
def oobMsg : String := "index out of bounds"

/-- Crash message for Rust `Option::unwrap` applied to `None`. -/
def unwrapMsg : String := "called Option unwrap on a None value"

/-- Crash message for Rust `todo!`. -/
def todoMsg : String := "not yet implemented"

/-- Error message of a failed binary type check (parser.rs lines 246, 287, 328). -/
def typeMismatchMsg : String := "Type mismatch"

/-- Error message of `parse_primary_expression` on an unusable token. -/
def primaryMsg : String := "Unexpected token found while parsing primary expression"

/-- Error message of `parse_type` on a non-identifier token. -/
def parseTypeIdentMsg : String := "Expected an identifier while parsing type"

/-- Error message of `parse_identifier` on a non-identifier token. -/
def identDispatchMsg : String := "Expected an identifier while parsing identifier"

/-- Redeclaration error message (parser.rs line 404; the source quotes the
name, the quotes are dropped here). -/
def redeclMsg (name : String) : String :=
  "Variable " ++ name ++ " already declared"

/-- Unknown-type error message (parser.rs line 147). -/
def unknownTypeMsg (s : String) : String := "Unknown type: " ++ s

/-- Unknown-identifier error message (parser.rs line 463). -/
def unknownIdentMsg (s : String) : String := "Unknown identifier: " ++ s

/-- Rendering of a token value inside an error message (the source uses the
Rust Debug formatter). -/
def describeTV : TokenValue → String
  | .identifier s => "Identifier " ++ s
  | .string s => "String " ++ s
  | .integer n => "Integer " ++ toString n
  | .float s => "Float " ++ s
  | .bool b => "Bool " ++ toString b
  | .arithmetic s => "Arithmetic " ++ s
  | .punctuation s => "Punctuation " ++ s
  | .nested => "Nested"

/-- Rendering of a value type inside an error message. -/
def describeVT : ValueType → String
  | .integer => "Integer"
  | .float => "Float"
  | .string => "String"
  | .bool => "Bool"

/-- Mismatch message of `expect` (parser.rs line 123). -/
def expectMsg (v w : TokenValue) : String :=
  "Expected " ++ describeTV v ++ " but got " ++ describeTV w

/-- Declared/inferred type mismatch message of `parse_variable_declaration`
(parser.rs line 417). -/
def varDeclMismatchMsg (a b : ValueType) : String :=
  "Type mismatch: expected " ++ describeVT a ++ " but found " ++ describeVT b

/-- Category test on the pattern of `expect` (parser.rs line 119): the
`if let` matches on the pattern argument `value`, not on the stream token. -/
def isCategoryPattern : TokenValue → Bool
  | .identifier _ => true
  | .string _ => true
  | .arithmetic _ => true
  | .punctuation _ => true
  | _ => false

/-- Token-stream access (parser.rs, `expect`, lines 112-124).  When the
position is past the end, the source tries to build its end-of-input error
from `toks[*i].pos` and that very index panics, hence `crash`.  In bounds,
an exactly equal token is returned; otherwise, if the PATTERN is an
identifier/string/arithmetic/punctuation value, the stream token is
returned whatever it is; otherwise the mismatch error is returned. -/
def expect (i : Nat) (toks : List Token) (value : TokenValue) : Except POut Token :=
  match tokAt toks i with
  | none => .error (.crash oobMsg)
  | some t =>
    if t.value = value then .ok t
    else if isCategoryPattern value then .ok t
    else .error (.err (expectMsg value t.value) t.pos)

/-- Scope push (parser.rs, `enter_scope`): the new top is a copy of the
previous top (or a fresh empty scope on an empty stack). -/
def enter_scope (scope : List Scope) : List Scope :=
  scope ++ [scope.getLast?.getD ⟨[], []⟩]

/-- Scope pop (parser.rs, `exit_scope`). -/
def exit_scope (scope : List Scope) : List Scope :=
  scope.dropLast

/-- Keyword table from identifier text to `ValueType` (parser.rs, `parse_type`). -/
def parse_type (tok : Token) : Except POut ValueType :=
  match tok.value with
  | .identifier s =>
    if s = "int" then .ok .integer
    else if s = "str" then .ok .string
    else if s = "float" then .ok .float
    else if s = "bool" then .ok .bool
    else .error (.err (unknownTypeMsg s) tok.pos)
  | _ => .error (.err parseTypeIdentMsg tok.pos)

/-- Lexer constructor for a category pattern.  Modelled from the spec: the
lexer (not under src/) provides `TokenValue::empty`; the parser only calls
it as `TokenValue::empty("identifier")`, producing the empty identifier
pattern that `expect` treats as the identifier category. -/
def TokenValue.empty (s : String) : Except POut TokenValue :=
  if s = "identifier" then .ok (.identifier (""))
  else .error (.crash todoMsg)

/-- Payload text of a token value.  Modelled from the spec: the lexer (not
under src/) provides `as_string`; the parser applies it only to identifier
tokens, whose text it returns. -/
def TokenValue.as_string : TokenValue → String
  | .identifier s => s
  | .string s => s
  | _ => ""

/-- The five expression layers and their three source `while` loops, tied
into one bundle so the mutual recursion of the source (a parenthesized
primary re-enters the whole expression grammar) becomes plain structural
recursion on fuel. -/
structure ExprParsers where
  primary : Nat → List Token → Except POut (PrimaryExpression × Nat)
  unary : Nat → List Token → Except POut (UnaryExpression × Nat)
  termLoop : List Token → UnaryExpression → Option TermExpression → Nat →
      Except POut (Option TermExpression × Nat)
  term : Nat → List Token → Except POut (Option TermExpression × Nat)
  compLoop : List Token → Option TermExpression → Option ComparisonExpression → Nat →
      Except POut (Option ComparisonExpression × Nat)
  comparison : Nat → List Token → Except POut (Option ComparisonExpression × Nat)
  exprLoop : List Token → Option ComparisonExpression → Option Expression → Nat →
      Except POut (Option Expression × Nat)
  expression : Nat → List Token → Except POut (Expression × Nat)

/-- One unfolding of `parse_primary_expression` (parser.rs lines 153-202).
The source indexes `toks[i]` before looking at the token, so an
out-of-bounds position panics. -/
def primaryStep (P : ExprParsers) (i : Nat) (toks : List Token) :
    Except POut (PrimaryExpression × Nat) :=
  match tokAt toks i with
  | none => .error (.crash oobMsg)
  | some t =>
    match t.value with
    | .string _ => .ok (⟨t.value, .string, none⟩, i + 1)
    | .integer _ => .ok (⟨t.value, .integer, none⟩, i + 1)
    | .float _ => .ok (⟨t.value, .float, none⟩, i + 1)
    | .bool _ => .ok (⟨t.value, .bool, none⟩, i + 1)
    | .punctuation p =>
      if p = "(" then
        match P.expression (i + 1) toks with
        | .error e => .error e
        | .ok (expr, j) =>
          match expect j toks (.punctuation (")")) with
          | .error e => .error e
          | .ok _ => .ok (⟨.nested, expr.typ, some expr⟩, j + 1)
      else .error (.err primaryMsg t.pos)
    | .identifier _ => .error (.crash todoMsg)
    | .arithmetic _ => .error (.err primaryMsg t.pos)
    | .nested => .error (.err primaryMsg t.pos)

/-- One unfolding of `parse_unary_expression` (parser.rs lines 204-228).
The source indexes `toks[i]` without a bounds check.  On a sign operator it
recurses and copies the operand of the inner node field by field. -/
def unaryStep (P : ExprParsers) (i : Nat) (toks : List Token) :
    Except POut (UnaryExpression × Nat) :=
  match tokAt toks i with
  | none => .error (.crash oobMsg)
  | some t =>
    if t.value = TokenValue.arithmetic ("-") ∨ t.value = TokenValue.arithmetic ("+") then
      match P.unary (i + 1) toks with
      | .error e => .error e
      | .ok (right, j) => .ok (⟨right.left, right.typ, some t⟩, j)
    else
      match P.primary i toks with
      | .error e => .error e
      | .ok (left, j) => .ok (⟨left, left.typ, none⟩, j)

/-- One unfolding of the `while` loop of `parse_term_expression` (parser.rs
lines 235-254).  The loop guard indexes `toks[i + 1]` with no bounds check;
the accumulator type is read with `expr.unwrap()`, which panics while the
accumulator is still `None`. -/
def termLoopStep (P : ExprParsers) (toks : List Token) (left : UnaryExpression)
    (expr : Option TermExpression) (i : Nat) :
    Except POut (Option TermExpression × Nat) :=
  match tokAt toks i with
  | none => .ok (expr, i)
  | some ti =>
    if ti.value = TokenValue.arithmetic ("*") ∨ ti.value = TokenValue.arithmetic ("/") ∨
        ti.value = TokenValue.arithmetic ("%") then
      match tokAt toks (i + 1) with
      | none => .error (.crash oobMsg)
      | some tn =>
        if tn.value = TokenValue.punctuation (";") then .ok (expr, i)
        else
          match expect i toks (.arithmetic ("")) with
          | .error e => .error e
          | .ok op =>
            match P.unary (i + 1) toks with
            | .error e => .error e
            | .ok (right, k) =>
              if left.typ = right.typ then
                match expr with
                | none => .error (.crash unwrapMsg)
                | some prev =>
                  P.termLoop toks left (some ⟨some right, some left, prev.typ, some op⟩) k
              else
                match tokAt toks k with
                | none => .error (.crash oobMsg)
                | some tk => .error (.err typeMismatchMsg tk.pos)
    else .ok (expr, i)

/-- One unfolding of `parse_term_expression` (parser.rs lines 230-266). -/
def termStep (P : ExprParsers) (i : Nat) (toks : List Token) :
    Except POut (Option TermExpression × Nat) :=
  match P.unary i toks with
  | .error e => .error e
  | .ok (left, j) =>
    match P.termLoop toks left none j with
    | .error e => .error e
    | .ok (expr, k) =>
      match expr with
      | none => .ok (some ⟨none, some left, left.typ, none⟩, k)
      | some e => .ok (some e, k)

/-- One unfolding of the `while` loop of `parse_comparison_expression`
(parser.rs lines 273-295), with the same unchecked `toks[i + 1]` lookahead
and the same `expr.unwrap()` read of the unseeded accumulator. -/
def compLoopStep (P : ExprParsers) (toks : List Token) (left : Option TermExpression)
    (expr : Option ComparisonExpression) (i : Nat) :
    Except POut (Option ComparisonExpression × Nat) :=
  match tokAt toks i with
  | none => .ok (expr, i)
  | some ti =>
    if ti.value = TokenValue.arithmetic ("==") ∨ ti.value = TokenValue.arithmetic ("!=") ∨
        ti.value = TokenValue.arithmetic (">=") ∨ ti.value = TokenValue.arithmetic ("<=") ∨
        ti.value = TokenValue.arithmetic (">") ∨ ti.value = TokenValue.arithmetic ("<") then
      match tokAt toks (i + 1) with
      | none => .error (.crash oobMsg)
      | some tn =>
        if tn.value = TokenValue.punctuation (";") then .ok (expr, i)
        else
          match expect i toks (.arithmetic ("")) with
          | .error e => .error e
          | .ok op =>
            match P.term (i + 1) toks with
            | .error e => .error e
            | .ok (rOpt, k) =>
              match left with
              | none => .error (.crash unwrapMsg)
              | some l =>
                match rOpt with
                | none => .error (.crash unwrapMsg)
                | some r =>
                  if l.typ = r.typ then
                    match expr with
                    | none => .error (.crash unwrapMsg)
                    | some prev =>
                      P.compLoop toks left (some ⟨rOpt, left, prev.typ, some op⟩) k
                  else
                    match tokAt toks k with
                    | none => .error (.crash oobMsg)
                    | some tk => .error (.err typeMismatchMsg tk.pos)
    else .ok (expr, i)

/-- One unfolding of `parse_comparison_expression` (parser.rs lines 268-307). -/
def comparisonStep (P : ExprParsers) (i : Nat) (toks : List Token) :
    Except POut (Option ComparisonExpression × Nat) :=
  match P.term i toks with
  | .error e => .error e
  | .ok (lOpt, j) =>
    match P.compLoop toks lOpt none j with
    | .error e => .error e
    | .ok (expr, k) =>
      match expr with
      | some e => .ok (some e, k)
      | none =>
        match lOpt with
        | none => .error (.crash unwrapMsg)
        | some l => .ok (some ⟨none, lOpt, l.typ, none⟩, k)

/-- One unfolding of the `while` loop of `parse_expression` (parser.rs
lines 314-342).  A parenthesized group replaces the accumulator wholesale;
an additive operator is consumed with no terminator lookahead, and the new
node takes the captured `left`, not the accumulator, as its left operand. -/
def exprLoopStep (P : ExprParsers) (toks : List Token)
    (left : Option ComparisonExpression) (expr : Option Expression) (i : Nat) :
    Except POut (Option Expression × Nat) :=
  match tokAt toks i with
  | none => .ok (expr, i)
  | some ti =>
    if ti.value = TokenValue.punctuation ("(") then
      match P.expression (i + 1) toks with
      | .error e => .error e
      | .ok (nested, k) =>
        match expect k toks (.punctuation (")")) with
        | .error e => .error e
        | .ok _ => P.exprLoop toks left (some nested) (k + 1)
    else if ti.value = TokenValue.arithmetic ("+") ∨ ti.value = TokenValue.arithmetic ("-") then
      match expect i toks (.arithmetic ("")) with
      | .error e => .error e
      | .ok op =>
        match P.comparison (i + 1) toks with
        | .error e => .error e
        | .ok (rOpt, k) =>
          match left with
          | none => .error (.crash unwrapMsg)
          | some l =>
            match rOpt with
            | none => .error (.crash unwrapMsg)
            | some r =>
              if l.typ = r.typ then
                P.exprLoop toks left
                  (some ⟨.binary ⟨some r, some l, l.typ, some op⟩, l.typ⟩) k
              else
                match tokAt toks k with
                | none => .error (.crash oobMsg)
                | some tk => .error (.err typeMismatchMsg tk.pos)
    else .ok (expr, i)

/-- One unfolding of `parse_expression` (parser.rs lines 309-352). -/
def expressionStep (P : ExprParsers) (i : Nat) (toks : List Token) :
    Except POut (Expression × Nat) :=
  match P.comparison i toks with
  | .error e => .error e
  | .ok (left, j) =>
    match P.exprLoop toks left none j with
    | .error e => .error e
    | .ok (expr, k) =>
      match expr with
      | some e => .ok (e, k)
      | none =>
        match left with
        | none => .error (.crash unwrapMsg)
        | some l => .ok (⟨.comparison l, l.typ⟩, k)

/-- The fuel-indexed expression-parser bundle; level `fuel + 1` runs one
source call, handing `fuel` to every callee. -/
def exprParsers : Nat → ExprParsers
  | 0 =>
    ⟨fun _ _ => .error .fuelOut, fun _ _ => .error .fuelOut,
     fun _ _ _ _ => .error .fuelOut, fun _ _ => .error .fuelOut,
     fun _ _ _ _ => .error .fuelOut, fun _ _ => .error .fuelOut,
     fun _ _ _ _ => .error .fuelOut, fun _ _ => .error .fuelOut⟩
  | fuel + 1 =>
    ⟨primaryStep (exprParsers fuel), unaryStep (exprParsers fuel),
     termLoopStep (exprParsers fuel), termStep (exprParsers fuel),
     compLoopStep (exprParsers fuel), comparisonStep (exprParsers fuel),
     exprLoopStep (exprParsers fuel), expressionStep (exprParsers fuel)⟩

/-- Layer 1, `parse_primary_expression`. -/
def parse_primary_expression (fuel i : Nat) (toks : List Token) :
    Except POut (PrimaryExpression × Nat) :=
  (exprParsers fuel).primary i toks

/-- Layer 2, `parse_unary_expression`. -/
def parse_unary_expression (fuel i : Nat) (toks : List Token) :
    Except POut (UnaryExpression × Nat) :=
  (exprParsers fuel).unary i toks

/-- The `while` loop of `parse_term_expression`. -/
def term_loop (fuel : Nat) (toks : List Token) (left : UnaryExpression)
    (expr : Option TermExpression) (i : Nat) :
    Except POut (Option TermExpression × Nat) :=
  (exprParsers fuel).termLoop toks left expr i

/-- Layer 3, `parse_term_expression`. -/
def parse_term_expression (fuel i : Nat) (toks : List Token) :
    Except POut (Option TermExpression × Nat) :=
  (exprParsers fuel).term i toks

/-- The `while` loop of `parse_comparison_expression`. -/
def comparison_loop (fuel : Nat) (toks : List Token) (left : Option TermExpression)
    (expr : Option ComparisonExpression) (i : Nat) :
    Except POut (Option ComparisonExpression × Nat) :=
  (exprParsers fuel).compLoop toks left expr i

/-- Layer 4, `parse_comparison_expression`. -/
def parse_comparison_expression (fuel i : Nat) (toks : List Token) :
    Except POut (Option ComparisonExpression × Nat) :=
  (exprParsers fuel).comparison i toks

/-- The `while` loop of `parse_expression`. -/
def expression_loop (fuel : Nat) (toks : List Token)
    (left : Option ComparisonExpression) (expr : Option Expression) (i : Nat) :
    Except POut (Option Expression × Nat) :=
  (exprParsers fuel).exprLoop toks left expr i

/-- Layer 5, `parse_expression`, the whole expression grammar. -/
def parse_expression (fuel i : Nat) (toks : List Token) :
    Except POut (Expression × Nat) :=
  (exprParsers fuel).expression i toks

/-- Statement parser for `let` (parser.rs, `parse_variable_declaration`,
lines 397-436).  The redeclaration test precedes everything but the name
read, and the successful path inserts the name with `mutable: false` into
the top scope and returns the position one past the consumed `;`. -/
def parse_variable_declaration (fuel i : Nat) (toks : List Token)
    (global_scope : List Scope) : Except POut (Statement × Nat × List Scope) :=
  match fuel with
  | 0 => .error .fuelOut
  | fuel + 1 =>
    match TokenValue.empty ("identifier") with
    | .error e => .error e
    | .ok pat =>
      match expect (i + 1) toks pat with
      | .error e => .error e
      | .ok nameTok =>
        let name := nameTok.value.as_string
        match global_scope.getLast? with
        | none => .error (.crash unwrapMsg)
        | some top =>
          if top.vars.any (fun v => v.1 == name) then
            .error (.err (redeclMsg name) nameTok.pos)
          else
            match expect (i + 2) toks (.punctuation (":")) with
            | .error e => .error e
            | .ok _ =>
              match expect (i + 3) toks pat with
              | .error e => .error e
              | .ok type_ident =>
                match parse_type type_ident with
                | .error e => .error e
                | .ok typ =>
                  match expect (i + 4) toks (.punctuation ("=")) with
                  | .error e => .error e
                  | .ok _ =>
                    match parse_expression fuel (i + 5) toks with
                    | .error e => .error e
                    | .ok (expr, j) =>
                      if typ = expr.typ then
                        match expect j toks (.punctuation (";")) with
                        | .error e => .error e
                        | .ok semi =>
                          .ok (⟨.variableDeclaration ⟨name, typ, expr⟩, semi.pos⟩,
                               j + 1,
                               setLast global_scope
                                 ⟨insertVariable top.vars name ⟨false, typ⟩,
                                  top.functions⟩)
                      else
                        match tokAt toks (i + 5) with
                        | none => .error (.crash oobMsg)
                        | some ti => .error (.err (varDeclMismatchMsg typ expr.typ) ti.pos)

/-- Statement parser for `fn` (parser.rs, `parse_function_declaration`,
lines 367-395): after the name and the opening parenthesis the source hits
`todo!("parse function arguments")`, so every call that gets that far
panics and the function never returns `Ok`. -/
def parse_function_declaration (fuel i : Nat) (toks : List Token)
    (global_scope : List Scope) : Except POut (Statement × Nat × List Scope) :=
  match fuel with
  | 0 => .error .fuelOut
  | _ + 1 =>
    match TokenValue.empty ("identifier") with
    | .error e => .error e
    | .ok pat =>
      match expect (i + 1) toks pat with
      | .error e => .error e
      | .ok _ =>
        match expect (i + 2) toks (.punctuation ("(")) with
        | .error e => .error e
        | .ok _ => .error (.crash todoMsg)

/-- Statement parser for a leading non-identifier (parser.rs,
`parse_expression_statement`, lines 438-452).  Note the returned position
is `j`, the index of the terminator itself: the `;` is checked but not
consumed. -/
def parse_expression_statement (fuel i : Nat) (toks : List Token)
    (global_scope : List Scope) : Except POut (Statement × Nat × List Scope) :=
  match fuel with
  | 0 => .error .fuelOut
  | fuel + 1 =>
    match parse_expression fuel i toks with
    | .error e => .error e
    | .ok (expr, j) =>
      match expect j toks (.punctuation (";")) with
      | .error e => .error e
      | .ok semi =>
        .ok (⟨.expressionStatement ⟨expr.typ, expr⟩, semi.pos⟩, j, global_scope)

/-- Dispatch on a leading identifier (parser.rs, `parse_identifier`,
lines 454-469). -/
def parse_identifier (fuel i : Nat) (toks : List Token)
    (global_scope : List Scope) : Except POut (Statement × Nat × List Scope) :=
  match fuel with
  | 0 => .error .fuelOut
  | fuel + 1 =>
    match tokAt toks i with
    | none => .error (.crash oobMsg)
    | some t =>
      match t.value with
      | .identifier s =>
        if s = "fn" then parse_function_declaration fuel i toks global_scope
        else if s = "let" then parse_variable_declaration fuel i toks global_scope
        else .error (.err (unknownIdentMsg s) t.pos)
      | _ => .error (.err identDispatchMsg t.pos)

/-- Statement dispatch (parser.rs, `parse_statement`, lines 471-483).  The
source reads `toks[i].pos` before its `while` guard, so a too-large
position panics and the end-of-file error below the loop is unreachable. -/
def parse_statement (fuel i : Nat) (toks : List Token)
    (global_scope : List Scope) : Except POut (Statement × Nat × List Scope) :=
  match fuel with
  | 0 => .error .fuelOut
  | fuel + 1 =>
    match tokAt toks i with
    | none => .error (.crash oobMsg)
    | some t =>
      match t.value with
      | .identifier _ => parse_identifier fuel i toks global_scope
      | _ => parse_expression_statement fuel i toks global_scope

/-- The `while` loop of the top-level `parse` (parser.rs lines 492-497),
threading position, scope stack and statement accumulator. -/
def parse_loop (fuel i : Nat) (toks : List Token) (global_scope : List Scope)
    (ast : List Statement) : Except POut (List Statement) :=
  match fuel with
  | 0 => .error .fuelOut
  | fuel + 1 =>
    if i < toks.length then
      match parse_statement fuel i toks global_scope with
      | .error e => .error e
      | .ok (stmt, j, scope) => parse_loop fuel j toks scope (ast ++ [stmt])
    else .ok ast

/-- Top-level entry (parser.rs, `parse`, lines 485-500): one fresh global
scope, then statements until the stream is exhausted.  The initial fuel is
an embedding artifact; the termination theorem shows it is never exhausted. -/
def parse (toks : List Token) : Except POut (List Statement) :=
  parse_loop (9 * (toks.length + 2)) 0 toks [⟨[], []⟩] []


/-! Sample token streams for the concrete evaluations.  Positions are
distinct so that positional claims are discriminating. -/

/-- Token stream of `1 - 2 - 3 ;`. -/
def toksLeftAssoc : List Token :=
  [⟨.integer 1, ⟨1, 0⟩⟩, ⟨.arithmetic ("-"), ⟨1, 2⟩⟩, ⟨.integer 2, ⟨1, 4⟩⟩,
   ⟨.arithmetic ("-"), ⟨1, 6⟩⟩, ⟨.integer 3, ⟨1, 8⟩⟩, ⟨.punctuation (";"), ⟨1, 9⟩⟩]

/-- Token stream of `1 + 2 * 3 ;`. -/
def toksPrec : List Token :=
  [⟨.integer 1, ⟨1, 0⟩⟩, ⟨.arithmetic ("+"), ⟨1, 2⟩⟩, ⟨.integer 2, ⟨1, 4⟩⟩,
   ⟨.arithmetic ("*"), ⟨1, 6⟩⟩, ⟨.integer 3, ⟨1, 8⟩⟩, ⟨.punctuation (";"), ⟨1, 9⟩⟩]

/-- Token stream of the truncated `let x : int =`. -/
def toksTrunc : List Token :=
  [⟨.identifier ("let"), ⟨1, 0⟩⟩, ⟨.identifier ("x"), ⟨1, 4⟩⟩,
   ⟨.punctuation (":"), ⟨1, 5⟩⟩, ⟨.identifier ("int"), ⟨1, 7⟩⟩,
   ⟨.punctuation ("="), ⟨1, 11⟩⟩]

/-- Token stream of `1 + 2 ;`. -/
def toksExprStmt : List Token :=
  [⟨.integer 1, ⟨1, 0⟩⟩, ⟨.arithmetic ("+"), ⟨1, 2⟩⟩, ⟨.integer 2, ⟨1, 4⟩⟩,
   ⟨.punctuation (";"), ⟨1, 6⟩⟩]

/-- Token stream of `1 + "a" ;` (operands of different types). -/
def toksMismatchAdd : List Token :=
  [⟨.integer 1, ⟨1, 0⟩⟩, ⟨.arithmetic ("+"), ⟨1, 2⟩⟩, ⟨.string ("a"), ⟨1, 4⟩⟩,
   ⟨.punctuation (";"), ⟨1, 6⟩⟩]

/-- Token stream of `1 * 2 ;` (same-typed term chain). -/
def toksMulSemi : List Token :=
  [⟨.integer 1, ⟨1, 0⟩⟩, ⟨.arithmetic ("*"), ⟨1, 2⟩⟩, ⟨.integer 2, ⟨1, 4⟩⟩,
   ⟨.punctuation (";"), ⟨1, 6⟩⟩]

/-- Token stream of `1 *` (operator as final token). -/
def toksMulEnd : List Token :=
  [⟨.integer 1, ⟨1, 0⟩⟩, ⟨.arithmetic ("*"), ⟨1, 2⟩⟩]

/-- Token stream of `1 + ;` (additive operator right before the terminator). -/
def toksPlusSemi : List Token :=
  [⟨.integer 1, ⟨1, 0⟩⟩, ⟨.arithmetic ("+"), ⟨1, 2⟩⟩, ⟨.punctuation (";"), ⟨1, 4⟩⟩]

/-- Token stream of `let x : int = 1 ;`. -/
def toksLet1 : List Token :=
  [⟨.identifier ("let"), ⟨1, 0⟩⟩, ⟨.identifier ("x"), ⟨1, 4⟩⟩,
   ⟨.punctuation (":"), ⟨1, 5⟩⟩, ⟨.identifier ("int"), ⟨1, 7⟩⟩,
   ⟨.punctuation ("="), ⟨1, 11⟩⟩, ⟨.integer 1, ⟨1, 13⟩⟩,
   ⟨.punctuation (";"), ⟨1, 14⟩⟩]

/-- Token stream of `let x : int = 2 ;`. -/
def toksLet2 : List Token :=
  [⟨.identifier ("let"), ⟨1, 0⟩⟩, ⟨.identifier ("x"), ⟨1, 4⟩⟩,
   ⟨.punctuation (":"), ⟨1, 5⟩⟩, ⟨.identifier ("int"), ⟨1, 7⟩⟩,
   ⟨.punctuation ("="), ⟨1, 11⟩⟩, ⟨.integer 2, ⟨1, 13⟩⟩,
   ⟨.punctuation (";"), ⟨1, 14⟩⟩]

/-- A scope stack whose single scope already declares `x`. -/
def scopeWithX : List Scope :=
  [⟨[(("x" : String), ⟨false, ValueType.integer⟩)], []⟩]

/-- The comparison-layer leaf node wrapping the integer literal `n`, as all
layers below the additive one build it. -/
def intLeafComp (n : Int) : ComparisonExpression :=
  ⟨none, some ⟨none, some ⟨⟨.integer n, .integer, none⟩, .integer, none⟩, .integer, none⟩,
   .integer, none⟩

/-- The comparison-layer leaf node wrapping the string literal `s`. -/
def strLeafComp (s : String) : ComparisonExpression :=
  ⟨none, some ⟨none, some ⟨⟨.string s, .string, none⟩, .string, none⟩, .string, none⟩,
   .string, none⟩

/-- Additive node built by the source for `1 + 2` of `toksExprStmt`. -/
def plusExpr : Expression :=
  ⟨.binary ⟨some (intLeafComp 2), some (intLeafComp 1), .integer,
    some ⟨.arithmetic ("+"), ⟨1, 2⟩⟩⟩, .integer⟩

/-- Statement built by the source for `toksLet1`. -/
def letStmt1 : Statement :=
  ⟨.variableDeclaration ⟨"x", .integer, ⟨.comparison (intLeafComp 1), .integer⟩⟩, ⟨1, 14⟩⟩

/-- Every variable recorded in the scope is immutable. -/
def scopeImmutable (s : Scope) : Prop := ∀ p ∈ s.vars, p.2.mutable = false

/-- Every variable of every scope of the stack is immutable. -/
def allImmutable (l : List Scope) : Prop := ∀ s ∈ l, scopeImmutable s

/-- Fuel needed by a source call at position `i` of a stream of length `n`
with static rank `r`: every call of the source either advances the position
or descends to a strictly lower rank, and the ranks stay below 9. -/
def need (n i r : Nat) : Nat := 9 * (n + 1 - i) + r + 1

/-- The result does not exhaust the fuel (the only outcome alien to the
source). -/
def NoFuel {α : Type} (r : Except POut α) : Prop := r ≠ .error .fuelOut
theorem tokAt_some_lt : ∀ {toks : List Token} {i : Nat} {t : Token},
    tokAt toks i = some t → i < toks.length := by
  intro toks
  induction toks with
  | nil => intro i t h; cases i <;> simp [tokAt] at h
  | cons a rest ih =>
    intro i t h
    cases i with
    | zero => simp
    | succ n =>
      have := ih (by simpa [tokAt] using h)
      simpa using Nat.succ_lt_succ this

/-- A successful `expect` returns exactly the token at the position. -/
theorem expect_ok_tokAt {i : Nat} {toks : List Token} {v : TokenValue} {t : Token}
    (h : expect i toks v = .ok t) : tokAt toks i = some t := by
  unfold expect at h
  cases htok : tokAt toks i with
  | none => simp [htok] at h
  | some u =>
    simp only [htok] at h
    by_cases h1 : u.value = v
    · simp only [h1, if_true, Except.ok.injEq] at h
      rw [h]
    · simp only [h1, if_false, ite_false] at h
      by_cases h2 : isCategoryPattern v = true
      · simp only [h2, if_true, Except.ok.injEq] at h
        rw [h]
      · simp [h2] at h

/-- On an in-bounds position a category pattern always succeeds, returning
the stream token unexamined. -/
theorem expect_cat_ok {i : Nat} {toks : List Token} {v : TokenValue} {t : Token}
    (htok : tokAt toks i = some t) (hcat : isCategoryPattern v = true) :
    expect i toks v = .ok t := by
  unfold expect
  rw [htok]
  by_cases h1 : t.value = v
  · simp [h1]
  · simp [h1, hcat]

/-- C1: the spec demands a left-associative fold, `1 - 2 - 3` parsing as
`(1 - 2) - 3` with the second minus node taking the `(1 - 2)` node as left
operand.  The source (parser.rs line 332) instead passes the captured
`left` — the bare first operand — into every node and overwrites the
accumulator, so the tree produced for `1 - 2 - 3 ;` is `Binary(1, -, 3)`:
the second operator's left operand is the first operand alone and the
middle operand is dropped.  This theorem evaluates the parser at the
failing input and exhibits that tree. -/
theorem c1_left_assoc_defect :
    parse_expression 72 0 toksLeftAssoc =
      .ok (⟨.binary ⟨some (intLeafComp 3), some (intLeafComp 1), .integer,
            some ⟨.arithmetic ("-"), ⟨1, 6⟩⟩⟩, .integer⟩, 5) := rfl

/-- C4: the spec demands `1 + 2 * 3` to parse with the multiplication as
the addition's right sub-tree.  The source instead panics: the first `*`
iteration of `parse_term_expression` reads `expr.unwrap().typ` (parser.rs
line 251) while the accumulator is still `None`.  This theorem evaluates
the parser at that input and obtains the unwrap panic. -/
theorem c4_precedence_crash :
    parse_expression 72 0 toksPrec = .error (.crash unwrapMsg) := rfl

/-- C3: the spec demands the truncated `let x : int =` to fail with an
`UnexpectedEndOfInput` error value and never panic, with `expect` raising
that failure before comparing anything.  The source panics instead: the
end-of-stream branch of `expect` (parser.rs line 114) builds its error
from `toks[*i].pos`, an out-of-bounds index, and `parse_unary_expression`
(line 206) indexes `toks[i]` with no bounds check at all.  Both evaluations
below end in the out-of-bounds panic, not an error value. -/
theorem c3_truncated_crash :
    parse toksTrunc = .error (.crash oobMsg) ∧
    expect 5 toksTrunc (.punctuation (";")) = .error (.crash oobMsg) :=
  ⟨rfl, rfl⟩

/-- C7: the claim says `parse_expression_statement` returns a position past
the consumed statement including its terminating `;`.  The source
(parser.rs line 451) returns `j`, the index OF the `;`: the terminator is
checked but never consumed, so the driver re-reads the `;` as the start of
the next statement and the whole parse of the well-formed program `1 + 2 ;`
fails in the primary layer at the `;` position. -/
theorem c7_semicolon_not_consumed :
    parse_expression_statement 72 0 toksExprStmt [⟨[], []⟩] =
      .ok (⟨.expressionStatement ⟨.integer, plusExpr⟩, ⟨1, 6⟩⟩, 3, [⟨[], []⟩]) ∧
    parse toksExprStmt = .error (.err primaryMsg ⟨1, 6⟩) :=
  ⟨rfl, rfl⟩

/-- C2 counterexample: the claim says a category pattern matches any token
of that SAME category, and that a token matching neither way produces an
UnexpectedToken error.  Here the pattern is the punctuation category and
the stream token is an integer literal — matching neither exactly nor by
category — yet `expect` returns it successfully, because the source tests
the pattern, never the token, for category membership. -/
theorem c2_counterexample :
    expect 0 [⟨.integer 5, ⟨1, 0⟩⟩] (.punctuation (";")) = .ok ⟨.integer 5, ⟨1, 0⟩⟩ ∧
    TokenValue.integer 5 ≠ TokenValue.punctuation (";") :=
  ⟨rfl, by decide⟩

/-- C2 amended: for an in-bounds position, `expect` returns the stream
token when it equals the pattern exactly, and also — whatever the token is
— whenever the PATTERN is of the identifier/string/arithmetic/punctuation
category; only a non-category pattern differing from the token fails, with
the mismatch error carrying the token's position. -/
theorem c2_expect_amended (i : Nat) (toks : List Token) (v : TokenValue) (t : Token)
    (htok : tokAt toks i = some t) :
    (t.value = v → expect i toks v = .ok t) ∧
    (isCategoryPattern v = true → expect i toks v = .ok t) ∧
    (t.value ≠ v → isCategoryPattern v = false →
      expect i toks v = .error (.err (expectMsg v t.value) t.pos)) := by
  refine ⟨?_, ?_, ?_⟩
  · intro h
    unfold expect
    rw [htok]
    simp [h]
  · intro h
    exact expect_cat_ok htok h
  · intro h1 h2
    unfold expect
    rw [htok]
    simp [h1, h2]

/-- Witness of c2_expect_amended: a category (identifier) pattern accepts
an integer token. -/
theorem c2_expect_amended_witness :
    expect 0 [⟨.integer 7, ⟨2, 0⟩⟩] (.identifier ("foo")) = .ok ⟨.integer 7, ⟨2, 0⟩⟩ :=
  (c2_expect_amended 0 [⟨.integer 7, ⟨2, 0⟩⟩] (.identifier ("foo"))
    ⟨.integer 7, ⟨2, 0⟩⟩ rfl).2.1 rfl

/-! Unfolding equations relating the fuel-indexed bundle to the named
parser functions; all hold by definition. -/

/-- Bundle field and named function agree (primary). -/
theorem exprParsers_primary (fuel i : Nat) (toks : List Token) :
    (exprParsers fuel).primary i toks = parse_primary_expression fuel i toks := rfl

/-- Bundle field and named function agree (unary). -/
theorem exprParsers_unary (fuel i : Nat) (toks : List Token) :
    (exprParsers fuel).unary i toks = parse_unary_expression fuel i toks := rfl

/-- Bundle field and named function agree (term loop). -/
theorem exprParsers_termLoop (fuel : Nat) (toks : List Token) (left : UnaryExpression)
    (acc : Option TermExpression) (i : Nat) :
    (exprParsers fuel).termLoop toks left acc i = term_loop fuel toks left acc i := rfl

/-- Bundle field and named function agree (term). -/
theorem exprParsers_term (fuel i : Nat) (toks : List Token) :
    (exprParsers fuel).term i toks = parse_term_expression fuel i toks := rfl

/-- Bundle field and named function agree (comparison loop). -/
theorem exprParsers_compLoop (fuel : Nat) (toks : List Token)
    (left : Option TermExpression) (acc : Option ComparisonExpression) (i : Nat) :
    (exprParsers fuel).compLoop toks left acc i = comparison_loop fuel toks left acc i := rfl

/-- Bundle field and named function agree (comparison). -/
theorem exprParsers_comparison (fuel i : Nat) (toks : List Token) :
    (exprParsers fuel).comparison i toks = parse_comparison_expression fuel i toks := rfl

/-- Bundle field and named function agree (expression loop). -/
theorem exprParsers_exprLoop (fuel : Nat) (toks : List Token)
    (left : Option ComparisonExpression) (acc : Option Expression) (i : Nat) :
    (exprParsers fuel).exprLoop toks left acc i = expression_loop fuel toks left acc i := rfl

/-- Bundle field and named function agree (expression). -/
theorem exprParsers_expression (fuel i : Nat) (toks : List Token) :
    (exprParsers fuel).expression i toks = parse_expression fuel i toks := rfl

/-- One-step unfolding of `parse_primary_expression`. -/
theorem parse_primary_expression_succ (fuel i : Nat) (toks : List Token) :
    parse_primary_expression (fuel + 1) i toks = primaryStep (exprParsers fuel) i toks := rfl

/-- One-step unfolding of `parse_unary_expression`. -/
theorem parse_unary_expression_succ (fuel i : Nat) (toks : List Token) :
    parse_unary_expression (fuel + 1) i toks = unaryStep (exprParsers fuel) i toks := rfl

/-- One-step unfolding of `term_loop`. -/
theorem term_loop_succ (fuel : Nat) (toks : List Token) (left : UnaryExpression)
    (acc : Option TermExpression) (i : Nat) :
    term_loop (fuel + 1) toks left acc i = termLoopStep (exprParsers fuel) toks left acc i := rfl

/-- One-step unfolding of `parse_term_expression`. -/
theorem parse_term_expression_succ (fuel i : Nat) (toks : List Token) :
    parse_term_expression (fuel + 1) i toks = termStep (exprParsers fuel) i toks := rfl

/-- One-step unfolding of `comparison_loop`. -/
theorem comparison_loop_succ (fuel : Nat) (toks : List Token)
    (left : Option TermExpression) (acc : Option ComparisonExpression) (i : Nat) :
    comparison_loop (fuel + 1) toks left acc i =
      compLoopStep (exprParsers fuel) toks left acc i := rfl

/-- One-step unfolding of `parse_comparison_expression`. -/
theorem parse_comparison_expression_succ (fuel i : Nat) (toks : List Token) :
    parse_comparison_expression (fuel + 1) i toks =
      comparisonStep (exprParsers fuel) i toks := rfl

/-- One-step unfolding of `expression_loop`. -/
theorem expression_loop_succ (fuel : Nat) (toks : List Token)
    (left : Option ComparisonExpression) (acc : Option Expression) (i : Nat) :
    expression_loop (fuel + 1) toks left acc i =
      exprLoopStep (exprParsers fuel) toks left acc i := rfl

/-- One-step unfolding of `parse_expression`. -/
theorem parse_expression_succ (fuel i : Nat) (toks : List Token) :
    parse_expression (fuel + 1) i toks = expressionStep (exprParsers fuel) i toks := rfl

/-- The identifier category pattern built by `TokenValue.empty`. -/
theorem tokenValue_empty_identifier :
    TokenValue.empty ("identifier") = Except.ok (TokenValue.identifier ("")) := rfl

/-! Structure of a successful variable declaration, shared by the
redeclaration and the immutability analyses. -/

/-- A successful `parse_variable_declaration` found the name absent from
the top scope and returned the stack with that top extended by the name,
immutable and at the declared type, the statement carrying the name. -/
theorem parse_variable_declaration_ok {fuel i : Nat} {toks : List Token}
    {sc : List Scope} {stmt : Statement} {j : Nat} {sc2 : List Scope}
    (h : parse_variable_declaration fuel i toks sc = .ok (stmt, j, sc2)) :
    ∃ top nameTok typ expr semi k,
      tokAt toks (i + 1) = some nameTok ∧
      sc.getLast? = some top ∧
      top.vars.any (fun v => v.1 == nameTok.value.as_string) = false ∧
      stmt = ⟨.variableDeclaration ⟨nameTok.value.as_string, typ, expr⟩, Token.pos semi⟩ ∧
      j = k + 1 ∧
      sc2 = setLast sc ⟨insertVariable top.vars nameTok.value.as_string ⟨false, typ⟩,
            top.functions⟩ := by
  cases fuel with
  | zero => simp [parse_variable_declaration] at h
  | succ fuel =>
    unfold parse_variable_declaration at h
    rw [tokenValue_empty_identifier] at h
    simp only [] at h
    cases hname : expect (i + 1) toks (.identifier ("")) with
    | error e => simp [hname] at h
    | ok nameTok =>
      simp only [hname] at h
      cases hlast : sc.getLast? with
      | none => simp [hlast] at h
      | some top =>
        simp only [hlast] at h
        cases hany : top.vars.any (fun v => v.1 == nameTok.value.as_string) with
        | true => simp [hany] at h
        | false =>
          simp only [hany, Bool.false_eq_true, if_false] at h
          cases hc : expect (i + 2) toks (.punctuation (":")) with
          | error e => simp [hc] at h
          | ok c1 =>
            simp only [hc] at h
            cases hti : expect (i + 3) toks (.identifier ("")) with
            | error e => simp [hti] at h
            | ok type_ident =>
              simp only [hti] at h
              cases hpt : parse_type type_ident with
              | error e => simp [hpt] at h
              | ok typ =>
                simp only [hpt] at h
                cases heq : expect (i + 4) toks (.punctuation ("=")) with
                | error e => simp [heq] at h
                | ok c2 =>
                  simp only [heq] at h
                  cases hex : parse_expression fuel (i + 5) toks with
                  | error e => simp [hex] at h
                  | ok pr =>
                    simp only [hex] at h
                    cases pr with
                    | mk expr k =>
                      by_cases hty : typ = expr.typ
                      · simp only [hty, eq_self_iff_true, if_true] at h
                        cases hsemi : expect k toks (.punctuation (";")) with
                        | error e => simp [hsemi] at h
                        | ok semi =>
                          simp only [hsemi, Except.ok.injEq, Prod.mk.injEq] at h
                          refine ⟨top, nameTok, expr.typ, expr, semi, k,
                            expect_ok_tokAt hname, rfl, hany, ?_, ?_, ?_⟩
                          · exact h.1.symm
                          · exact h.2.1.symm
                          · exact h.2.2.symm
                      · simp only [if_neg hty] at h
                        cases htk : tokAt toks (i + 5) with
                        | none => simp [htk] at h
                        | some ti => simp [htk] at h

/-- C8: a `let` whose name is already present in the current (innermost)
scope fails with the redeclaration error at the position of the offending
second occurrence of the name, and no scope is returned at all (the parse
aborts); a successful declaration — only possible when the name was absent
from the current scope — returns the stack whose top scope has the name
inserted. -/
theorem c8_declare (fuel i : Nat) (toks : List Token) (sc : List Scope)
    (top : Scope) (nameTok : Token)
    (htok : tokAt toks (i + 1) = some nameTok)
    (hlast : sc.getLast? = some top) :
    (top.vars.any (fun v => v.1 == nameTok.value.as_string) = true →
      parse_variable_declaration (fuel + 1) i toks sc =
        .error (.err (redeclMsg nameTok.value.as_string) nameTok.pos)) ∧
    (∀ stmt j sc2, parse_variable_declaration (fuel + 1) i toks sc = .ok (stmt, j, sc2) →
      top.vars.any (fun v => v.1 == nameTok.value.as_string) = false ∧
      ∃ typ expr semi,
        stmt = ⟨.variableDeclaration ⟨nameTok.value.as_string, typ, expr⟩, Token.pos semi⟩ ∧
        sc2 = setLast sc ⟨insertVariable top.vars nameTok.value.as_string ⟨false, typ⟩,
              top.functions⟩) := by
  constructor
  · intro hany
    have hexp : expect (i + 1) toks (.identifier ("")) = .ok nameTok :=
      expect_cat_ok htok rfl
    unfold parse_variable_declaration
    rw [tokenValue_empty_identifier]
    simp only [hexp, hlast, hany, eq_self_iff_true, if_true]
  · intro stmt j sc2 h
    obtain ⟨top2, nameTok2, typ, expr, semi, k, h1, h2, h3, h4, h5, h6⟩ :=
      parse_variable_declaration_ok h
    rw [htok] at h1
    injection h1 with h1
    subst h1
    rw [hlast] at h2
    injection h2 with h2
    subst h2
    exact ⟨h3, typ, expr, semi, h4, h6⟩

/-- Witness of c8_declare: redeclaring `x` via `let x : int = 2 ;` in a
scope already holding `x` fails at the position of the second `x`. -/
theorem c8_declare_witness :
    parse_variable_declaration 73 0 toksLet2 scopeWithX =
      .error (.err (redeclMsg ("x")) ⟨1, 4⟩) :=
  (c8_declare 72 0 toksLet2 scopeWithX ⟨[(("x" : String), ⟨false, ValueType.integer⟩)], []⟩
    ⟨.identifier ("x"), ⟨1, 4⟩⟩ rfl rfl).1 rfl

/-- The last element of a list is a member. -/
theorem mem_of_getLast? : ∀ {l : List Scope} {a : Scope}, l.getLast? = some a → a ∈ l := by
  intro l
  induction l with
  | nil => intro a h; simp at h
  | cons x rest ih =>
    intro a h
    cases rest with
    | nil =>
      simp [List.getLast?] at h
      simp [h]
    | cons y t =>
      rw [List.getLast?_cons_cons] at h
      exact List.mem_cons_of_mem _ (ih h)

/-- Membership after replacing the last element. -/
theorem mem_setLast : ∀ {l : List Scope} {s a : Scope}, a ∈ setLast l s → a ∈ l ∨ a = s := by
  intro l
  induction l with
  | nil => intro s a h; simp [setLast] at h
  | cons x rest ih =>
    intro s a h
    cases rest with
    | nil =>
      simp [setLast] at h
      exact Or.inr h
    | cons y t =>
      simp only [setLast, List.mem_cons] at h
      rcases h with h | h
      · exact Or.inl (by simp [h])
      · rcases ih h with h2 | h2
        · exact Or.inl (List.mem_cons_of_mem _ h2)
        · exact Or.inr h2

/-- `parse_function_declaration` never succeeds: the source reaches
`todo!("parse function arguments")` on every path that has not already
failed. -/
theorem parse_function_declaration_no_ok {fuel i : Nat} {toks : List Token}
    {sc : List Scope} {r : Statement × Nat × List Scope}
    (h : parse_function_declaration fuel i toks sc = .ok r) : False := by
  cases fuel with
  | zero => simp [parse_function_declaration] at h
  | succ fuel =>
    unfold parse_function_declaration at h
    rw [tokenValue_empty_identifier] at h
    cases h1 : expect (i + 1) toks (.identifier ("")) with
    | error e => simp [h1] at h
    | ok t1 =>
      simp only [h1] at h
      cases h2 : expect (i + 2) toks (.punctuation ("(")) with
      | error e => simp [h2] at h
      | ok t2 => simp [h2] at h

/-- A successful expression statement returns the scope stack unchanged. -/
theorem parse_expression_statement_scope {fuel i : Nat} {toks : List Token}
    {sc : List Scope} {stmt : Statement} {j : Nat} {sc2 : List Scope}
    (h : parse_expression_statement fuel i toks sc = .ok (stmt, j, sc2)) : sc2 = sc := by
  cases fuel with
  | zero => simp [parse_expression_statement] at h
  | succ fuel =>
    unfold parse_expression_statement at h
    cases h1 : parse_expression fuel i toks with
    | error e => simp [h1] at h
    | ok pr =>
      cases pr with
      | mk expr j2 =>
        simp only [h1] at h
        cases h2 : expect j2 toks (.punctuation (";")) with
        | error e => simp [h2] at h
        | ok semi =>
          simp only [h2, Except.ok.injEq, Prod.mk.injEq] at h
          exact h.2.2.symm

/-- A successful variable declaration preserves the all-immutable invariant
of the scope stack: the only insertion carries `mutable := false`. -/
theorem parse_variable_declaration_immutable {fuel i : Nat} {toks : List Token}
    {sc : List Scope} {stmt : Statement} {j : Nat} {sc2 : List Scope}
    (hsc : allImmutable sc)
    (h : parse_variable_declaration fuel i toks sc = .ok (stmt, j, sc2)) :
    allImmutable sc2 := by
  obtain ⟨top, nameTok, typ, expr, semi, k, h1, h2, h3, h4, h5, h6⟩ :=
    parse_variable_declaration_ok h
  subst h6
  intro s hs
  rcases mem_setLast hs with hmem | hset
  · exact hsc s hmem
  · subst hset
    intro p hp
    simp only [insertVariable] at hp
    rcases List.mem_append.mp hp with hm | hm
    · exact hsc top (mem_of_getLast? h2) p hm
    · simp at hm
      simp [hm]

/-- A successful identifier-led statement preserves the all-immutable
invariant: `fn` never succeeds, `let` inserts immutably, anything else
fails. -/
theorem parse_identifier_immutable {fuel i : Nat} {toks : List Token}
    {sc : List Scope} {stmt : Statement} {j : Nat} {sc2 : List Scope}
    (hsc : allImmutable sc)
    (h : parse_identifier fuel i toks sc = .ok (stmt, j, sc2)) :
    allImmutable sc2 := by
  cases fuel with
  | zero => simp [parse_identifier] at h
  | succ fuel =>
    unfold parse_identifier at h
    cases htok : tokAt toks i with
    | none => simp [htok] at h
    | some t =>
      simp only [htok] at h
      cases hv : t.value with
      | identifier s =>
        simp only [hv] at h
        by_cases hfn : s = "fn"
        · rw [if_pos hfn] at h
          exact (parse_function_declaration_no_ok h).elim
        · rw [if_neg hfn] at h
          by_cases hlet : s = "let"
          · rw [if_pos hlet] at h
            exact parse_variable_declaration_immutable hsc h
          · rw [if_neg hlet] at h
            simp at h
      | string s => simp [hv] at h
      | integer n => simp [hv] at h
      | float s => simp [hv] at h
      | bool b => simp [hv] at h
      | arithmetic s => simp [hv] at h
      | punctuation s => simp [hv] at h
      | nested => simp [hv] at h

/-- C10: every `VariableOptions` the parser ever records is immutable.  If
every scope of the incoming stack holds only `mutable = false` entries,
then after any successful statement parse the outgoing stack still does:
the single insertion point of the front end (parser.rs line 423) hard-codes
`mutable: false`, expression statements return the stack unchanged, and
function declarations never succeed.  Since `parse` starts from one empty
scope, every scope the parser ever builds satisfies the invariant. -/
theorem c10_immutable (fuel i : Nat) (toks : List Token) (sc : List Scope)
    (stmt : Statement) (j : Nat) (sc2 : List Scope)
    (hsc : allImmutable sc)
    (h : parse_statement fuel i toks sc = .ok (stmt, j, sc2)) :
    allImmutable sc2 := by
  cases fuel with
  | zero => simp [parse_statement] at h
  | succ fuel =>
    unfold parse_statement at h
    cases htok : tokAt toks i with
    | none => simp [htok] at h
    | some t =>
      simp only [htok] at h
      cases hv : t.value with
      | identifier s =>
        simp only [hv] at h
        exact parse_identifier_immutable hsc h
      | string s =>
        simp only [hv] at h
        have hss := parse_expression_statement_scope h
        subst hss
        exact hsc
      | integer n =>
        simp only [hv] at h
        have hss := parse_expression_statement_scope h
        subst hss
        exact hsc
      | float s =>
        simp only [hv] at h
        have hss := parse_expression_statement_scope h
        subst hss
        exact hsc
      | bool b =>
        simp only [hv] at h
        have hss := parse_expression_statement_scope h
        subst hss
        exact hsc
      | arithmetic s =>
        simp only [hv] at h
        have hss := parse_expression_statement_scope h
        subst hss
        exact hsc
      | punctuation s =>
        simp only [hv] at h
        have hss := parse_expression_statement_scope h
        subst hss
        exact hsc
      | nested =>
        simp only [hv] at h
        have hss := parse_expression_statement_scope h
        subst hss
        exact hsc

/-- Witness of c10_immutable: parsing `let x : int = 1 ;` from the initial
empty scope yields a stack whose recorded `x` is immutable. -/
theorem c10_immutable_witness :
    allImmutable [⟨[(("x" : String), ⟨false, ValueType.integer⟩)], []⟩] :=
  c10_immutable 80 0 toksLet1 [⟨[], []⟩] letStmt1 7
    [⟨[(("x" : String), ⟨false, ValueType.integer⟩)], []⟩]
    (by intro s hs p hp; simp at hs; simp [hs] at hp)
    (by rfl)

/-- C5 counterexample: for `1 + "a" ;` the additive combination of an
integer left and a string right fails with the type-mismatch error at
position (1,6) — the `;` AFTER the right operand — and not at the right
operand's own starting position (1,4); and at the Term layer the claim's
equal-types clause fails outright: `1 * 2 ;` panics instead of producing a
node of the operand type. -/
theorem c5_counterexample :
    parse_expression 72 0 toksMismatchAdd = .error (.err typeMismatchMsg ⟨1, 6⟩) ∧
    tokAt toksMismatchAdd 2 = some ⟨.string ("a"), ⟨1, 4⟩⟩ ∧
    (⟨1, 6⟩ : TokenPos) ≠ ⟨1, 4⟩ ∧
    parse_term_expression 72 0 toksMulSemi = .error (.crash unwrapMsg) :=
  ⟨rfl, rfl, by decide, rfl⟩

/-- C5 amended: when a binary layer combines a left node with a newly
parsed right node and the types differ, parsing fails with the
type-mismatch error at the position of the token at the resume position —
the token immediately AFTER the right operand, not the right operand's
start.  When the types are equal, the Additive layer continues with an
accumulator node whose type is the left operand's type, while the Term and
Comparison layers panic on their first operator, unwrapping the type of the
still-unseeded accumulator. -/
theorem c5_type_check_amended (fuel : Nat) (toks : List Token) :
    (∀ (l : ComparisonExpression) (acc : Option Expression) (i : Nat) (t : Token)
        (rc : ComparisonExpression) (k : Nat) (tk : Token),
      tokAt toks i = some t →
      (t.value = TokenValue.arithmetic ("+") ∨ t.value = TokenValue.arithmetic ("-")) →
      parse_comparison_expression fuel (i + 1) toks = .ok (some rc, k) →
      tokAt toks k = some tk →
      (¬ l.typ = rc.typ →
        expression_loop (fuel + 1) toks (some l) acc i =
          .error (.err typeMismatchMsg tk.pos)) ∧
      (l.typ = rc.typ →
        expression_loop (fuel + 1) toks (some l) acc i =
          expression_loop fuel toks (some l)
            (some ⟨.binary ⟨some rc, some l, l.typ, some t⟩, l.typ⟩) k)) ∧
    (∀ (left : UnaryExpression) (i : Nat) (t tn : Token) (right : UnaryExpression) (k : Nat),
      tokAt toks i = some t →
      (t.value = TokenValue.arithmetic ("*") ∨ t.value = TokenValue.arithmetic ("/") ∨
        t.value = TokenValue.arithmetic ("%")) →
      tokAt toks (i + 1) = some tn →
      ¬ tn.value = TokenValue.punctuation (";") →
      parse_unary_expression fuel (i + 1) toks = .ok (right, k) →
      (∀ tk, ¬ left.typ = right.typ → tokAt toks k = some tk →
        term_loop (fuel + 1) toks left none i = .error (.err typeMismatchMsg tk.pos)) ∧
      (left.typ = right.typ →
        term_loop (fuel + 1) toks left none i = .error (.crash unwrapMsg))) ∧
    (∀ (lt : TermExpression) (i : Nat) (t tn : Token) (rt : TermExpression) (k : Nat),
      tokAt toks i = some t →
      (t.value = TokenValue.arithmetic ("==") ∨ t.value = TokenValue.arithmetic ("!=") ∨
        t.value = TokenValue.arithmetic (">=") ∨ t.value = TokenValue.arithmetic ("<=") ∨
        t.value = TokenValue.arithmetic (">") ∨ t.value = TokenValue.arithmetic ("<")) →
      tokAt toks (i + 1) = some tn →
      ¬ tn.value = TokenValue.punctuation (";") →
      parse_term_expression fuel (i + 1) toks = .ok (some rt, k) →
      (∀ tk, ¬ lt.typ = rt.typ → tokAt toks k = some tk →
        comparison_loop (fuel + 1) toks (some lt) none i =
          .error (.err typeMismatchMsg tk.pos)) ∧
      (lt.typ = rt.typ →
        comparison_loop (fuel + 1) toks (some lt) none i = .error (.crash unwrapMsg))) := by
  refine ⟨?_, ?_, ?_⟩
  · intro l acc i t rc k tk htok hop hcomp htk
    have hnp : ¬ t.value = TokenValue.punctuation ("(") := by
      rcases hop with h | h <;> simp [h]
    have hexp : expect i toks (.arithmetic ("")) = .ok t := expect_cat_ok htok rfl
    rw [expression_loop_succ]
    unfold exprLoopStep
    simp only [htok]
    rw [if_neg hnp, if_pos hop]
    simp only [hexp, exprParsers_comparison, hcomp]
    refine ⟨?_, ?_⟩
    · intro hne
      rw [if_neg hne]
      simp only [htk]
    · intro heq
      rw [if_pos heq]
      exact exprParsers_exprLoop fuel toks (some l) _ k
  · intro left i t tn right k htok hop htn hsemi hun
    have hexp : expect i toks (.arithmetic ("")) = .ok t := expect_cat_ok htok rfl
    rw [term_loop_succ]
    unfold termLoopStep
    simp only [htok]
    rw [if_pos hop]
    simp only [htn]
    rw [if_neg hsemi]
    simp only [hexp, exprParsers_unary, hun]
    refine ⟨?_, ?_⟩
    · intro tk hne htk
      rw [if_neg hne]
      simp only [htk]
    · intro heq
      rw [if_pos heq]
  · intro lt i t tn rt k htok hop htn hsemi hterm
    have hexp : expect i toks (.arithmetic ("")) = .ok t := expect_cat_ok htok rfl
    rw [comparison_loop_succ]
    unfold compLoopStep
    simp only [htok]
    rw [if_pos hop]
    simp only [htn]
    rw [if_neg hsemi]
    simp only [hexp, exprParsers_term, hterm]
    refine ⟨?_, ?_⟩
    · intro tk hne htk
      rw [if_neg hne]
      simp only [htk]
    · intro heq
      rw [if_pos heq]

/-- Witness of c5_type_check_amended: at `1 + "a" ;` the additive mismatch
error lands on the `;` at (1,6). -/
theorem c5_type_check_amended_witness :
    expression_loop 73 toksMismatchAdd (some (intLeafComp 1)) none 1 =
      .error (.err typeMismatchMsg ⟨1, 6⟩) :=
  (((c5_type_check_amended 72 toksMismatchAdd).1 (intLeafComp 1) none 1
    ⟨.arithmetic ("+"), ⟨1, 2⟩⟩ (strLeafComp ("a")) 3 ⟨.punctuation (";"), ⟨1, 6⟩⟩
    rfl (Or.inl rfl) rfl rfl).1) (by decide)

/-- Parsing a primary expression at a `;` token fails with the
unexpected-token error at the `;` position. -/
theorem primary_at_semicolon (fuel m : Nat) (toks : List Token) (tn : Token)
    (htn : tokAt toks m = some tn)
    (hsemi : tn.value = TokenValue.punctuation (";")) :
    parse_primary_expression (fuel + 1) m toks = .error (.err primaryMsg tn.pos) := by
  rw [parse_primary_expression_succ]
  unfold primaryStep
  simp [htn, hsemi]

/-- Parsing a unary expression at a `;` token fails in the primary layer. -/
theorem unary_at_semicolon (fuel m : Nat) (toks : List Token) (tn : Token)
    (htn : tokAt toks m = some tn)
    (hsemi : tn.value = TokenValue.punctuation (";")) :
    parse_unary_expression (fuel + 2) m toks = .error (.err primaryMsg tn.pos) := by
  show unaryStep (exprParsers (fuel + 1)) m toks = _
  unfold unaryStep
  simp [htn, hsemi, exprParsers_primary, primary_at_semicolon fuel m toks tn htn hsemi]

/-- Parsing a term expression at a `;` token fails in the primary layer. -/
theorem term_at_semicolon (fuel m : Nat) (toks : List Token) (tn : Token)
    (htn : tokAt toks m = some tn)
    (hsemi : tn.value = TokenValue.punctuation (";")) :
    parse_term_expression (fuel + 3) m toks = .error (.err primaryMsg tn.pos) := by
  show termStep (exprParsers (fuel + 2)) m toks = _
  unfold termStep
  rw [exprParsers_unary, unary_at_semicolon fuel m toks tn htn hsemi]

/-- Parsing a comparison expression at a `;` token fails in the primary
layer. -/
theorem comparison_at_semicolon (fuel m : Nat) (toks : List Token) (tn : Token)
    (htn : tokAt toks m = some tn)
    (hsemi : tn.value = TokenValue.punctuation (";")) :
    parse_comparison_expression (fuel + 4) m toks = .error (.err primaryMsg tn.pos) := by
  show comparisonStep (exprParsers (fuel + 3)) m toks = _
  unfold comparisonStep
  rw [exprParsers_term, term_at_semicolon fuel m toks tn htn hsemi]

/-- C6 counterexample: the claim says the operator lookahead never reads
past the end of the stream and that all three binary layers refuse an
operator directly followed by `;`.  Both parts fail on the source: for
`1 *` the Term-layer lookahead indexes one past the end and panics, and for
`1 + ;` the Additive layer — which has no lookahead at all — consumes the
`+` and then fails in the primary layer at the `;`, rather than stopping
in front of the operator. -/
theorem c6_counterexample :
    parse_term_expression 72 0 toksMulEnd = .error (.crash oobMsg) ∧
    parse_expression 72 0 toksPlusSemi = .error (.err primaryMsg ⟨1, 4⟩) :=
  ⟨rfl, rfl⟩

/-- C6 amended: the Term and Comparison layers do check, before consuming
an operator, that the token following it is not `;` — the loop hands back
the accumulator unchanged at the operator position — but they perform that
lookahead with an unchecked `toks[i + 1]`, which panics when the operator
is the last token of the stream; and the Additive layer has no such
lookahead: it consumes an operator even when `;` follows, failing later in
the primary layer at the `;` position. -/
theorem c6_guard_amended (fuel : Nat) (toks : List Token) :
    (∀ (left : UnaryExpression) (acc : Option TermExpression) (i : Nat) (t tn : Token),
      tokAt toks i = some t →
      (t.value = TokenValue.arithmetic ("*") ∨ t.value = TokenValue.arithmetic ("/") ∨
        t.value = TokenValue.arithmetic ("%")) →
      tokAt toks (i + 1) = some tn →
      tn.value = TokenValue.punctuation (";") →
      term_loop (fuel + 1) toks left acc i = .ok (acc, i)) ∧
    (∀ (lt : Option TermExpression) (acc : Option ComparisonExpression) (i : Nat) (t tn : Token),
      tokAt toks i = some t →
      (t.value = TokenValue.arithmetic ("==") ∨ t.value = TokenValue.arithmetic ("!=") ∨
        t.value = TokenValue.arithmetic (">=") ∨ t.value = TokenValue.arithmetic ("<=") ∨
        t.value = TokenValue.arithmetic (">") ∨ t.value = TokenValue.arithmetic ("<")) →
      tokAt toks (i + 1) = some tn →
      tn.value = TokenValue.punctuation (";") →
      comparison_loop (fuel + 1) toks lt acc i = .ok (acc, i)) ∧
    (∀ (left : UnaryExpression) (acc : Option TermExpression) (i : Nat) (t : Token),
      tokAt toks i = some t →
      (t.value = TokenValue.arithmetic ("*") ∨ t.value = TokenValue.arithmetic ("/") ∨
        t.value = TokenValue.arithmetic ("%")) →
      tokAt toks (i + 1) = none →
      term_loop (fuel + 1) toks left acc i = .error (.crash oobMsg)) ∧
    (∀ (lt : Option TermExpression) (acc : Option ComparisonExpression) (i : Nat) (t : Token),
      tokAt toks i = some t →
      (t.value = TokenValue.arithmetic ("==") ∨ t.value = TokenValue.arithmetic ("!=") ∨
        t.value = TokenValue.arithmetic (">=") ∨ t.value = TokenValue.arithmetic ("<=") ∨
        t.value = TokenValue.arithmetic (">") ∨ t.value = TokenValue.arithmetic ("<")) →
      tokAt toks (i + 1) = none →
      comparison_loop (fuel + 1) toks lt acc i = .error (.crash oobMsg)) ∧
    (∀ (lc : Option ComparisonExpression) (acc : Option Expression) (i : Nat) (t tn : Token),
      tokAt toks i = some t →
      (t.value = TokenValue.arithmetic ("+") ∨ t.value = TokenValue.arithmetic ("-")) →
      tokAt toks (i + 1) = some tn →
      tn.value = TokenValue.punctuation (";") →
      expression_loop (fuel + 5) toks lc acc i = .error (.err primaryMsg tn.pos)) := by
  refine ⟨?_, ?_, ?_, ?_, ?_⟩
  · intro left acc i t tn htok hop htn hsemi
    rw [term_loop_succ]
    unfold termLoopStep
    simp only [htok]
    rw [if_pos hop]
    simp [htn, hsemi]
  · intro lt acc i t tn htok hop htn hsemi
    rw [comparison_loop_succ]
    unfold compLoopStep
    simp only [htok]
    rw [if_pos hop]
    simp [htn, hsemi]
  · intro left acc i t htok hop htn
    rw [term_loop_succ]
    unfold termLoopStep
    simp only [htok]
    rw [if_pos hop]
    simp only [htn]
  · intro lt acc i t htok hop htn
    rw [comparison_loop_succ]
    unfold compLoopStep
    simp only [htok]
    rw [if_pos hop]
    simp only [htn]
  · intro lc acc i t tn htok hop htn hsemi
    have hnp : ¬ t.value = TokenValue.punctuation ("(") := by
      rcases hop with h | h <;> simp [h]
    have hexp : expect i toks (.arithmetic ("")) = .ok t := expect_cat_ok htok rfl
    show exprLoopStep (exprParsers (fuel + 4)) toks lc acc i = _
    unfold exprLoopStep
    simp only [htok]
    rw [if_neg hnp, if_pos hop]
    simp only [hexp, exprParsers_comparison,
      comparison_at_semicolon fuel (i + 1) toks tn htn hsemi]

/-- Witness of c6_guard_amended: at `1 * ;` (operator then terminator) the
Term-layer loop stops without consuming the `*`. -/
theorem c6_guard_amended_witness :
    term_loop 73 [⟨.integer 1, ⟨1, 0⟩⟩, ⟨.arithmetic ("*"), ⟨1, 2⟩⟩,
        ⟨.punctuation (";"), ⟨1, 4⟩⟩]
      ⟨⟨.integer 1, .integer, none⟩, .integer, none⟩ none 1 = .ok (none, 1) :=
  (c6_guard_amended 72 [⟨.integer 1, ⟨1, 0⟩⟩, ⟨.arithmetic ("*"), ⟨1, 2⟩⟩,
        ⟨.punctuation (";"), ⟨1, 4⟩⟩]).1
    ⟨⟨.integer 1, .integer, none⟩, .integer, none⟩ none 1
    ⟨.arithmetic ("*"), ⟨1, 2⟩⟩ ⟨.punctuation (";"), ⟨1, 4⟩⟩
    rfl (Or.inl rfl) rfl rfl

/-- Position progress of every expression layer: a successful parse leaves
the position strictly advanced (the loops, which may run zero iterations,
leave it at least where it was).  This is the source invariant behind
termination: every iteration consumes at least one token. -/
theorem expr_progress : ∀ (fuel : Nat) (toks : List Token),
    (∀ i p j, parse_primary_expression fuel i toks = .ok (p, j) → i < j) ∧
    (∀ i u j, parse_unary_expression fuel i toks = .ok (u, j) → i < j) ∧
    (∀ left acc i e j, term_loop fuel toks left acc i = .ok (e, j) → i ≤ j) ∧
    (∀ i e j, parse_term_expression fuel i toks = .ok (e, j) → i < j) ∧
    (∀ lt acc i e j, comparison_loop fuel toks lt acc i = .ok (e, j) → i ≤ j) ∧
    (∀ i e j, parse_comparison_expression fuel i toks = .ok (e, j) → i < j) ∧
    (∀ lc acc i e j, expression_loop fuel toks lc acc i = .ok (e, j) → i ≤ j) ∧
    (∀ i e j, parse_expression fuel i toks = .ok (e, j) → i < j) := by
  intro fuel
  induction fuel with
  | zero =>
    intro toks
    refine ⟨?_, ?_, ?_, ?_, ?_, ?_, ?_, ?_⟩
    · intro i p j h; simp [parse_primary_expression, exprParsers] at h
    · intro i u j h; simp [parse_unary_expression, exprParsers] at h
    · intro left acc i e j h; simp [term_loop, exprParsers] at h
    · intro i e j h; simp [parse_term_expression, exprParsers] at h
    · intro lt acc i e j h; simp [comparison_loop, exprParsers] at h
    · intro i e j h; simp [parse_comparison_expression, exprParsers] at h
    · intro lc acc i e j h; simp [expression_loop, exprParsers] at h
    · intro i e j h; simp [parse_expression, exprParsers] at h
  | succ fuel ih =>
    intro toks
    obtain ⟨ihp, ihu, ihtl, iht, ihcl, ihc, ihel, ihe⟩ := ih toks
    refine ⟨?_, ?_, ?_, ?_, ?_, ?_, ?_, ?_⟩
    · -- primary
      intro i p j h
      rw [parse_primary_expression_succ] at h
      unfold primaryStep at h
      simp only [exprParsers_expression] at h
      cases htok : tokAt toks i with
      | none => simp [htok] at h
      | some t =>
        simp only [htok] at h
        cases hv : t.value with
        | string s =>
          simp only [hv, Except.ok.injEq, Prod.mk.injEq] at h
          omega
        | integer n =>
          simp only [hv, Except.ok.injEq, Prod.mk.injEq] at h
          omega
        | float s =>
          simp only [hv, Except.ok.injEq, Prod.mk.injEq] at h
          omega
        | bool b =>
          simp only [hv, Except.ok.injEq, Prod.mk.injEq] at h
          omega
        | punctuation s =>
          simp only [hv] at h
          by_cases hpar : s = "("
          · rw [if_pos hpar] at h
            cases hsub : parse_expression fuel (i + 1) toks with
            | error e2 => simp [hsub] at h
            | ok pr =>
              cases pr with
              | mk expr2 j2 =>
                simp only [hsub] at h
                cases hx : expect j2 toks (.punctuation (")")) with
                | error e2 => simp [hx] at h
                | ok c =>
                  simp only [hx, Except.ok.injEq, Prod.mk.injEq] at h
                  have := ihe (i + 1) expr2 j2 hsub
                  omega
          · rw [if_neg hpar] at h
            simp at h
        | identifier s => simp [hv] at h
        | arithmetic s => simp [hv] at h
        | nested => simp [hv] at h
    · -- unary
      intro i u j h
      rw [parse_unary_expression_succ] at h
      unfold unaryStep at h
      simp only [exprParsers_unary, exprParsers_primary] at h
      cases htok : tokAt toks i with
      | none => simp [htok] at h
      | some t =>
        simp only [htok] at h
        by_cases hsign : t.value = TokenValue.arithmetic ("-") ∨
            t.value = TokenValue.arithmetic ("+")
        · rw [if_pos hsign] at h
          cases hsub : parse_unary_expression fuel (i + 1) toks with
          | error e2 => simp [hsub] at h
          | ok pr =>
            cases pr with
            | mk r j2 =>
              simp only [hsub, Except.ok.injEq, Prod.mk.injEq] at h
              have := ihu (i + 1) r j2 hsub
              omega
        · rw [if_neg hsign] at h
          cases hsub : parse_primary_expression fuel i toks with
          | error e2 => simp [hsub] at h
          | ok pr =>
            cases pr with
            | mk l j2 =>
              simp only [hsub, Except.ok.injEq, Prod.mk.injEq] at h
              have := ihp i l j2 hsub
              omega
    · -- term loop
      intro left acc i e j h
      rw [term_loop_succ] at h
      unfold termLoopStep at h
      simp only [exprParsers_unary, exprParsers_termLoop] at h
      cases htok : tokAt toks i with
      | none =>
        simp only [htok, Except.ok.injEq, Prod.mk.injEq] at h
        omega
      | some ti =>
        simp only [htok] at h
        by_cases hop : ti.value = TokenValue.arithmetic ("*") ∨
            ti.value = TokenValue.arithmetic ("/") ∨ ti.value = TokenValue.arithmetic ("%")
        · rw [if_pos hop] at h
          cases htn : tokAt toks (i + 1) with
          | none => simp [htn] at h
          | some tn =>
            simp only [htn] at h
            by_cases hsemi : tn.value = TokenValue.punctuation (";")
            · rw [if_pos hsemi] at h
              simp only [Except.ok.injEq, Prod.mk.injEq] at h
              omega
            · rw [if_neg hsemi] at h
              cases hx : expect i toks (.arithmetic ("")) with
              | error e2 => simp [hx] at h
              | ok op =>
                simp only [hx] at h
                cases hsub : parse_unary_expression fuel (i + 1) toks with
                | error e2 => simp [hsub] at h
                | ok pr =>
                  cases pr with
                  | mk r k =>
                    simp only [hsub] at h
                    by_cases hty : left.typ = r.typ
                    · rw [if_pos hty] at h
                      cases acc with
                      | none => simp at h
                      | some prev =>
                        simp only [] at h
                        have h1 := ihtl left
                          (some ⟨some r, some left, prev.typ, some op⟩) k e j h
                        have h2 := ihu (i + 1) r k hsub
                        omega
                    · rw [if_neg hty] at h
                      cases htk : tokAt toks k with
                      | none => simp [htk] at h
                      | some tk => simp [htk] at h
        · rw [if_neg hop] at h
          simp only [Except.ok.injEq, Prod.mk.injEq] at h
          omega
    · -- term
      intro i e j h
      rw [parse_term_expression_succ] at h
      unfold termStep at h
      simp only [exprParsers_unary, exprParsers_termLoop] at h
      cases hsub : parse_unary_expression fuel i toks with
      | error e2 => simp [hsub] at h
      | ok pr =>
        cases pr with
        | mk left j1 =>
          simp only [hsub] at h
          cases hloop : term_loop fuel toks left none j1 with
          | error e2 => simp [hloop] at h
          | ok pr2 =>
            cases pr2 with
            | mk expr2 k =>
              simp only [hloop] at h
              have h1 := ihu i left j1 hsub
              have h2 := ihtl left none j1 expr2 k hloop
              cases expr2 with
              | none =>
                simp only [Except.ok.injEq, Prod.mk.injEq] at h
                omega
              | some e2 =>
                simp only [Except.ok.injEq, Prod.mk.injEq] at h
                omega
    · -- comparison loop
      intro lt acc i e j h
      rw [comparison_loop_succ] at h
      unfold compLoopStep at h
      simp only [exprParsers_term, exprParsers_compLoop] at h
      cases htok : tokAt toks i with
      | none =>
        simp only [htok, Except.ok.injEq, Prod.mk.injEq] at h
        omega
      | some ti =>
        simp only [htok] at h
        by_cases hop : ti.value = TokenValue.arithmetic ("==") ∨
            ti.value = TokenValue.arithmetic ("!=") ∨
            ti.value = TokenValue.arithmetic (">=") ∨
            ti.value = TokenValue.arithmetic ("<=") ∨
            ti.value = TokenValue.arithmetic (">") ∨ ti.value = TokenValue.arithmetic ("<")
        · rw [if_pos hop] at h
          cases htn : tokAt toks (i + 1) with
          | none => simp [htn] at h
          | some tn =>
            simp only [htn] at h
            by_cases hsemi : tn.value = TokenValue.punctuation (";")
            · rw [if_pos hsemi] at h
              simp only [Except.ok.injEq, Prod.mk.injEq] at h
              omega
            · rw [if_neg hsemi] at h
              cases hx : expect i toks (.arithmetic ("")) with
              | error e2 => simp [hx] at h
              | ok op =>
                simp only [hx] at h
                cases hsub : parse_term_expression fuel (i + 1) toks with
                | error e2 => simp [hsub] at h
                | ok pr =>
                  cases pr with
                  | mk rOpt k =>
                    simp only [hsub] at h
                    cases lt with
                    | none => simp at h
                    | some l =>
                      simp only [] at h
                      cases rOpt with
                      | none => simp at h
                      | some r =>
                        simp only [] at h
                        by_cases hty : l.typ = r.typ
                        · rw [if_pos hty] at h
                          cases acc with
                          | none => simp at h
                          | some prev =>
                            simp only [] at h
                            have h1 := ihcl (some l)
                              (some ⟨some r, some l, prev.typ, some op⟩) k e j h
                            have h2 := iht (i + 1) (some r) k hsub
                            omega
                        · rw [if_neg hty] at h
                          cases htk : tokAt toks k with
                          | none => simp [htk] at h
                          | some tk => simp [htk] at h
        · rw [if_neg hop] at h
          simp only [Except.ok.injEq, Prod.mk.injEq] at h
          omega
    · -- comparison
      intro i e j h
      rw [parse_comparison_expression_succ] at h
      unfold comparisonStep at h
      simp only [exprParsers_term, exprParsers_compLoop] at h
      cases hsub : parse_term_expression fuel i toks with
      | error e2 => simp [hsub] at h
      | ok pr =>
        cases pr with
        | mk lOpt j1 =>
          simp only [hsub] at h
          cases hloop : comparison_loop fuel toks lOpt none j1 with
          | error e2 => simp [hloop] at h
          | ok pr2 =>
            cases pr2 with
            | mk expr2 k =>
              simp only [hloop] at h
              have h1 := iht i lOpt j1 hsub
              have h2 := ihcl lOpt none j1 expr2 k hloop
              cases expr2 with
              | none =>
                cases lOpt with
                | none => simp at h
                | some l =>
                  simp only [Except.ok.injEq, Prod.mk.injEq] at h
                  omega
              | some e2 =>
                simp only [Except.ok.injEq, Prod.mk.injEq] at h
                omega
    · -- expression loop
      intro lc acc i e j h
      rw [expression_loop_succ] at h
      unfold exprLoopStep at h
      simp only [exprParsers_expression, exprParsers_comparison, exprParsers_exprLoop] at h
      cases htok : tokAt toks i with
      | none =>
        simp only [htok, Except.ok.injEq, Prod.mk.injEq] at h
        omega
      | some ti =>
        simp only [htok] at h
        by_cases hpar : ti.value = TokenValue.punctuation ("(")
        · rw [if_pos hpar] at h
          cases hsub : parse_expression fuel (i + 1) toks with
          | error e2 => simp [hsub] at h
          | ok pr =>
            cases pr with
            | mk ne2 k =>
              simp only [hsub] at h
              cases hx : expect k toks (.punctuation (")")) with
              | error e2 => simp [hx] at h
              | ok c =>
                simp only [hx] at h
                have h1 := ihel lc (some ne2) (k + 1) e j h
                have h2 := ihe (i + 1) ne2 k hsub
                omega
        · rw [if_neg hpar] at h
          by_cases hop : ti.value = TokenValue.arithmetic ("+") ∨
              ti.value = TokenValue.arithmetic ("-")
          · rw [if_pos hop] at h
            cases hx : expect i toks (.arithmetic ("")) with
            | error e2 => simp [hx] at h
            | ok op =>
              simp only [hx] at h
              cases hsub : parse_comparison_expression fuel (i + 1) toks with
              | error e2 => simp [hsub] at h
              | ok pr =>
                cases pr with
                | mk rOpt k =>
                  simp only [hsub] at h
                  cases lc with
                  | none => simp at h
                  | some l =>
                    simp only [] at h
                    cases rOpt with
                    | none => simp at h
                    | some r =>
                      simp only [] at h
                      by_cases hty : l.typ = r.typ
                      · rw [if_pos hty] at h
                        have h1 := ihel (some l)
                          (some ⟨.binary ⟨some r, some l, l.typ, some op⟩, l.typ⟩) k e j h
                        have h2 := ihc (i + 1) (some r) k hsub
                        omega
                      · rw [if_neg hty] at h
                        cases htk : tokAt toks k with
                        | none => simp [htk] at h
                        | some tk => simp [htk] at h
          · rw [if_neg hop] at h
            simp only [Except.ok.injEq, Prod.mk.injEq] at h
            omega
    · -- expression
      intro i e j h
      rw [parse_expression_succ] at h
      unfold expressionStep at h
      simp only [exprParsers_comparison, exprParsers_exprLoop] at h
      cases hsub : parse_comparison_expression fuel i toks with
      | error e2 => simp [hsub] at h
      | ok pr =>
        cases pr with
        | mk lOpt j1 =>
          simp only [hsub] at h
          cases hloop : expression_loop fuel toks lOpt none j1 with
          | error e2 => simp [hloop] at h
          | ok pr2 =>
            cases pr2 with
            | mk expr2 k =>
              simp only [hloop] at h
              have h1 := ihc i lOpt j1 hsub
              have h2 := ihel lOpt none j1 expr2 k hloop
              cases expr2 with
              | none =>
                cases lOpt with
                | none => simp at h
                | some l =>
                  simp only [Except.ok.injEq, Prod.mk.injEq] at h
                  omega
              | some e2 =>
                simp only [Except.ok.injEq, Prod.mk.injEq] at h
                omega

/-- A successful result never reports fuel exhaustion. -/
theorem noFuel_ok {α : Type} (a : α) : NoFuel (Except.ok a : Except POut α) := by
  simp [NoFuel]

/-- An error other than fuel exhaustion never reports fuel exhaustion. -/
theorem noFuel_err {α : Type} {e : POut} (he : ¬ e = POut.fuelOut) :
    NoFuel (Except.error e : Except POut α) := by
  simp [NoFuel, he]

/-- The error of a fuel-respecting computation is not fuel exhaustion. -/
theorem noFuel_of_error {α : Type} {r : Except POut α} {e : POut}
    (h : NoFuel r) (heq : r = .error e) : ¬ e = POut.fuelOut := by
  intro hcon
  rw [heq, hcon] at h
  exact h rfl

/-- `expect` never reports fuel exhaustion: it is not fuelled. -/
theorem expect_not_fuelOut {i : Nat} {toks : List Token} {v : TokenValue} {e : POut}
    (h : expect i toks v = .error e) : ¬ e = POut.fuelOut := by
  unfold expect at h
  cases htok : tokAt toks i with
  | none =>
    simp only [htok, Except.error.injEq] at h
    simp [← h]
  | some t =>
    simp only [htok] at h
    by_cases h1 : t.value = v
    · simp [h1] at h
    · rw [if_neg h1] at h
      by_cases h2 : isCategoryPattern v = true
      · simp [h2] at h
      · simp only [h2, Bool.false_eq_true, if_false, Except.error.injEq] at h
        simp [← h]

/-- `parse_type` never reports fuel exhaustion: it is not fuelled. -/
theorem parse_type_not_fuelOut {tok : Token} {e : POut}
    (h : parse_type tok = .error e) : ¬ e = POut.fuelOut := by
  unfold parse_type at h
  cases hv : tok.value with
  | identifier s =>
    simp only [hv] at h
    by_cases h1 : s = "int"
    · simp [h1] at h
    · rw [if_neg h1] at h
      by_cases h2 : s = "str"
      · simp [h2] at h
      · rw [if_neg h2] at h
        by_cases h3 : s = "float"
        · simp [h3] at h
        · rw [if_neg h3] at h
          by_cases h4 : s = "bool"
          · simp [h4] at h
          · rw [if_neg h4] at h
            simp only [Except.error.injEq] at h
            simp [← h]
  | string s => simp only [hv, Except.error.injEq] at h; simp [← h]
  | integer n => simp only [hv, Except.error.injEq] at h; simp [← h]
  | float s => simp only [hv, Except.error.injEq] at h; simp [← h]
  | bool b => simp only [hv, Except.error.injEq] at h; simp [← h]
  | arithmetic s => simp only [hv, Except.error.injEq] at h; simp [← h]
  | punctuation s => simp only [hv, Except.error.injEq] at h; simp [← h]
  | nested => simp only [hv, Except.error.injEq] at h; simp [← h]

/-- Fuel sufficiency of every expression layer: with fuel at least the
`need` of the entry position, the parser never exhausts its fuel.  Together
with `expr_progress` this proves the embedding fuel is an artifact: each
source call either advances the position (bounded by the stream length) or
descends to a lower layer (bounded by the fixed layer count). -/
theorem expr_sufficient : ∀ (fuel : Nat) (toks : List Token),
    (∀ i, need toks.length i 0 ≤ fuel → NoFuel (parse_primary_expression fuel i toks)) ∧
    (∀ i, need toks.length i 1 ≤ fuel → NoFuel (parse_unary_expression fuel i toks)) ∧
    (∀ left acc i, need toks.length i 0 ≤ fuel → NoFuel (term_loop fuel toks left acc i)) ∧
    (∀ i, need toks.length i 2 ≤ fuel → NoFuel (parse_term_expression fuel i toks)) ∧
    (∀ lt acc i, need toks.length i 0 ≤ fuel → NoFuel (comparison_loop fuel toks lt acc i)) ∧
    (∀ i, need toks.length i 3 ≤ fuel → NoFuel (parse_comparison_expression fuel i toks)) ∧
    (∀ lc acc i, need toks.length i 0 ≤ fuel → NoFuel (expression_loop fuel toks lc acc i)) ∧
    (∀ i, need toks.length i 4 ≤ fuel → NoFuel (parse_expression fuel i toks)) := by
  intro fuel
  induction fuel with
  | zero =>
    intro toks
    refine ⟨?_, ?_, ?_, ?_, ?_, ?_, ?_, ?_⟩ <;>
      · intro _
        first
          | (intro hfuel; unfold need at hfuel; omega)
          | (intro _ _ hfuel; unfold need at hfuel; omega)
  | succ fuel ih =>
    intro toks
    obtain ⟨ihp, ihu, ihtl, iht, ihcl, ihc, ihel, ihe⟩ := ih toks
    obtain ⟨pp, pu, ptl, pt, pcl, pc, pel, pe⟩ := expr_progress fuel toks
    refine ⟨?_, ?_, ?_, ?_, ?_, ?_, ?_, ?_⟩
    · -- primary, rank 0
      intro i hfuel hcontra
      rw [parse_primary_expression_succ] at hcontra
      unfold primaryStep at hcontra
      simp only [exprParsers_expression] at hcontra
      cases htok : tokAt toks i with
      | none => simp [htok] at hcontra
      | some t =>
        have hlt : i < toks.length := tokAt_some_lt htok
        simp only [htok] at hcontra
        cases hv : t.value with
        | string s => simp [hv] at hcontra
        | integer n => simp [hv] at hcontra
        | float s => simp [hv] at hcontra
        | bool b => simp [hv] at hcontra
        | punctuation s =>
          simp only [hv] at hcontra
          by_cases hpar : s = "("
          · rw [if_pos hpar] at hcontra
            have hsu := ihe (i + 1) (by unfold need at hfuel ⊢; omega)
            cases hsub : parse_expression fuel (i + 1) toks with
            | error e2 =>
              simp only [hsub, Except.error.injEq] at hcontra
              exact (noFuel_of_error hsu hsub) hcontra
            | ok pr =>
              cases pr with
              | mk expr2 j2 =>
                simp only [hsub] at hcontra
                cases hx : expect j2 toks (.punctuation (")")) with
                | error e2 =>
                  simp only [hx, Except.error.injEq] at hcontra
                  exact (expect_not_fuelOut hx) hcontra
                | ok c => simp [hx] at hcontra
          · rw [if_neg hpar] at hcontra
            simp at hcontra
        | identifier s => simp [hv] at hcontra
        | arithmetic s => simp [hv] at hcontra
        | nested => simp [hv] at hcontra
    · -- unary, rank 1
      intro i hfuel hcontra
      rw [parse_unary_expression_succ] at hcontra
      unfold unaryStep at hcontra
      simp only [exprParsers_unary, exprParsers_primary] at hcontra
      cases htok : tokAt toks i with
      | none => simp [htok] at hcontra
      | some t =>
        have hlt : i < toks.length := tokAt_some_lt htok
        simp only [htok] at hcontra
        by_cases hsign : t.value = TokenValue.arithmetic ("-") ∨
            t.value = TokenValue.arithmetic ("+")
        · rw [if_pos hsign] at hcontra
          have hsu := ihu (i + 1) (by unfold need at hfuel ⊢; omega)
          cases hsub : parse_unary_expression fuel (i + 1) toks with
          | error e2 =>
            simp only [hsub, Except.error.injEq] at hcontra
            exact (noFuel_of_error hsu hsub) hcontra
          | ok pr =>
            cases pr with
            | mk r j2 => simp [hsub] at hcontra
        · rw [if_neg hsign] at hcontra
          have hsu := ihp i (by unfold need at hfuel ⊢; omega)
          cases hsub : parse_primary_expression fuel i toks with
          | error e2 =>
            simp only [hsub, Except.error.injEq] at hcontra
            exact (noFuel_of_error hsu hsub) hcontra
          | ok pr =>
            cases pr with
            | mk l j2 => simp [hsub] at hcontra
    · -- term loop, rank 0
      intro left acc i hfuel hcontra
      rw [term_loop_succ] at hcontra
      unfold termLoopStep at hcontra
      simp only [exprParsers_unary, exprParsers_termLoop] at hcontra
      cases htok : tokAt toks i with
      | none => simp [htok] at hcontra
      | some ti =>
        have hlt : i < toks.length := tokAt_some_lt htok
        simp only [htok] at hcontra
        by_cases hop : ti.value = TokenValue.arithmetic ("*") ∨
            ti.value = TokenValue.arithmetic ("/") ∨ ti.value = TokenValue.arithmetic ("%")
        · rw [if_pos hop] at hcontra
          cases htn : tokAt toks (i + 1) with
          | none => simp [htn] at hcontra
          | some tn =>
            simp only [htn] at hcontra
            by_cases hsemi : tn.value = TokenValue.punctuation (";")
            · rw [if_pos hsemi] at hcontra
              simp at hcontra
            · rw [if_neg hsemi] at hcontra
              cases hx : expect i toks (.arithmetic ("")) with
              | error e2 =>
                simp only [hx, Except.error.injEq] at hcontra
                exact (expect_not_fuelOut hx) hcontra
              | ok op =>
                simp only [hx] at hcontra
                have hsu := ihu (i + 1) (by unfold need at hfuel ⊢; omega)
                cases hsub : parse_unary_expression fuel (i + 1) toks with
                | error e2 =>
                  simp only [hsub, Except.error.injEq] at hcontra
                  exact (noFuel_of_error hsu hsub) hcontra
                | ok pr =>
                  cases pr with
                  | mk r k =>
                    simp only [hsub] at hcontra
                    by_cases hty : left.typ = r.typ
                    · rw [if_pos hty] at hcontra
                      cases acc with
                      | none => simp at hcontra
                      | some prev =>
                        simp only [] at hcontra
                        have hk := pu (i + 1) r k hsub
                        exact ihtl left (some ⟨some r, some left, prev.typ, some op⟩) k
                          (by unfold need at hfuel ⊢; omega) hcontra
                    · rw [if_neg hty] at hcontra
                      cases htk : tokAt toks k with
                      | none => simp [htk] at hcontra
                      | some tk => simp [htk] at hcontra
        · rw [if_neg hop] at hcontra
          simp at hcontra
    · -- term, rank 2
      intro i hfuel hcontra
      rw [parse_term_expression_succ] at hcontra
      unfold termStep at hcontra
      simp only [exprParsers_unary, exprParsers_termLoop] at hcontra
      have hsu := ihu i (by unfold need at hfuel ⊢; omega)
      cases hsub : parse_unary_expression fuel i toks with
      | error e2 =>
        simp only [hsub, Except.error.injEq] at hcontra
        exact (noFuel_of_error hsu hsub) hcontra
      | ok pr =>
        cases pr with
        | mk left j1 =>
          simp only [hsub] at hcontra
          have hj1 := pu i left j1 hsub
          have hlu := ihtl left none j1 (by unfold need at hfuel ⊢; omega)
          cases hloop : term_loop fuel toks left none j1 with
          | error e2 =>
            simp only [hloop, Except.error.injEq] at hcontra
            exact (noFuel_of_error hlu hloop) hcontra
          | ok pr2 =>
            cases pr2 with
            | mk expr2 k =>
              simp only [hloop] at hcontra
              cases expr2 with
              | none => simp at hcontra
              | some e2 => simp at hcontra
    · -- comparison loop, rank 0
      intro lt acc i hfuel hcontra
      rw [comparison_loop_succ] at hcontra
      unfold compLoopStep at hcontra
      simp only [exprParsers_term, exprParsers_compLoop] at hcontra
      cases htok : tokAt toks i with
      | none => simp [htok] at hcontra
      | some ti =>
        have hlt : i < toks.length := tokAt_some_lt htok
        simp only [htok] at hcontra
        by_cases hop : ti.value = TokenValue.arithmetic ("==") ∨
            ti.value = TokenValue.arithmetic ("!=") ∨
            ti.value = TokenValue.arithmetic (">=") ∨
            ti.value = TokenValue.arithmetic ("<=") ∨
            ti.value = TokenValue.arithmetic (">") ∨ ti.value = TokenValue.arithmetic ("<")
        · rw [if_pos hop] at hcontra
          cases htn : tokAt toks (i + 1) with
          | none => simp [htn] at hcontra
          | some tn =>
            simp only [htn] at hcontra
            by_cases hsemi : tn.value = TokenValue.punctuation (";")
            · rw [if_pos hsemi] at hcontra
              simp at hcontra
            · rw [if_neg hsemi] at hcontra
              cases hx : expect i toks (.arithmetic ("")) with
              | error e2 =>
                simp only [hx, Except.error.injEq] at hcontra
                exact (expect_not_fuelOut hx) hcontra
              | ok op =>
                simp only [hx] at hcontra
                have hsu := iht (i + 1) (by unfold need at hfuel ⊢; omega)
                cases hsub : parse_term_expression fuel (i + 1) toks with
                | error e2 =>
                  simp only [hsub, Except.error.injEq] at hcontra
                  exact (noFuel_of_error hsu hsub) hcontra
                | ok pr =>
                  cases pr with
                  | mk rOpt k =>
                    simp only [hsub] at hcontra
                    cases lt with
                    | none => simp at hcontra
                    | some l =>
                      simp only [] at hcontra
                      cases rOpt with
                      | none => simp at hcontra
                      | some r =>
                        simp only [] at hcontra
                        by_cases hty : l.typ = r.typ
                        · rw [if_pos hty] at hcontra
                          cases acc with
                          | none => simp at hcontra
                          | some prev =>
                            simp only [] at hcontra
                            have hk := pt (i + 1) (some r) k hsub
                            exact ihcl (some l)
                              (some ⟨some r, some l, prev.typ, some op⟩) k
                              (by unfold need at hfuel ⊢; omega) hcontra
                        · rw [if_neg hty] at hcontra
                          cases htk : tokAt toks k with
                          | none => simp [htk] at hcontra
                          | some tk => simp [htk] at hcontra
        · rw [if_neg hop] at hcontra
          simp at hcontra
    · -- comparison, rank 3
      intro i hfuel hcontra
      rw [parse_comparison_expression_succ] at hcontra
      unfold comparisonStep at hcontra
      simp only [exprParsers_term, exprParsers_compLoop] at hcontra
      have hsu := iht i (by unfold need at hfuel ⊢; omega)
      cases hsub : parse_term_expression fuel i toks with
      | error e2 =>
        simp only [hsub, Except.error.injEq] at hcontra
        exact (noFuel_of_error hsu hsub) hcontra
      | ok pr =>
        cases pr with
        | mk lOpt j1 =>
          simp only [hsub] at hcontra
          have hj1 := pt i lOpt j1 hsub
          have hlu := ihcl lOpt none j1 (by unfold need at hfuel ⊢; omega)
          cases hloop : comparison_loop fuel toks lOpt none j1 with
          | error e2 =>
            simp only [hloop, Except.error.injEq] at hcontra
            exact (noFuel_of_error hlu hloop) hcontra
          | ok pr2 =>
            cases pr2 with
            | mk expr2 k =>
              simp only [hloop] at hcontra
              cases expr2 with
              | none =>
                cases lOpt with
                | none => simp at hcontra
                | some l => simp at hcontra
              | some e2 => simp at hcontra
    · -- expression loop, rank 0
      intro lc acc i hfuel hcontra
      rw [expression_loop_succ] at hcontra
      unfold exprLoopStep at hcontra
      simp only [exprParsers_expression, exprParsers_comparison,
        exprParsers_exprLoop] at hcontra
      cases htok : tokAt toks i with
      | none => simp [htok] at hcontra
      | some ti =>
        have hlt : i < toks.length := tokAt_some_lt htok
        simp only [htok] at hcontra
        by_cases hpar : ti.value = TokenValue.punctuation ("(")
        · rw [if_pos hpar] at hcontra
          have hsu := ihe (i + 1) (by unfold need at hfuel ⊢; omega)
          cases hsub : parse_expression fuel (i + 1) toks with
          | error e2 =>
            simp only [hsub, Except.error.injEq] at hcontra
            exact (noFuel_of_error hsu hsub) hcontra
          | ok pr =>
            cases pr with
            | mk ne2 k =>
              simp only [hsub] at hcontra
              cases hx : expect k toks (.punctuation (")")) with
              | error e2 =>
                simp only [hx, Except.error.injEq] at hcontra
                exact (expect_not_fuelOut hx) hcontra
              | ok c =>
                simp only [hx] at hcontra
                have hk := pe (i + 1) ne2 k hsub
                exact ihel lc (some ne2) (k + 1)
                  (by unfold need at hfuel ⊢; omega) hcontra
        · rw [if_neg hpar] at hcontra
          by_cases hop : ti.value = TokenValue.arithmetic ("+") ∨
              ti.value = TokenValue.arithmetic ("-")
          · rw [if_pos hop] at hcontra
            cases hx : expect i toks (.arithmetic ("")) with
            | error e2 =>
              simp only [hx, Except.error.injEq] at hcontra
              exact (expect_not_fuelOut hx) hcontra
            | ok op =>
              simp only [hx] at hcontra
              have hsu := ihc (i + 1) (by unfold need at hfuel ⊢; omega)
              cases hsub : parse_comparison_expression fuel (i + 1) toks with
              | error e2 =>
                simp only [hsub, Except.error.injEq] at hcontra
                exact (noFuel_of_error hsu hsub) hcontra
              | ok pr =>
                cases pr with
                | mk rOpt k =>
                  simp only [hsub] at hcontra
                  cases lc with
                  | none => simp at hcontra
                  | some l =>
                    simp only [] at hcontra
                    cases rOpt with
                    | none => simp at hcontra
                    | some r =>
                      simp only [] at hcontra
                      by_cases hty : l.typ = r.typ
                      · rw [if_pos hty] at hcontra
                        have hk := pc (i + 1) (some r) k hsub
                        exact ihel (some l)
                          (some ⟨.binary ⟨some r, some l, l.typ, some op⟩, l.typ⟩) k
                          (by unfold need at hfuel ⊢; omega) hcontra
                      · rw [if_neg hty] at hcontra
                        cases htk : tokAt toks k with
                        | none => simp [htk] at hcontra
                        | some tk => simp [htk] at hcontra
          · rw [if_neg hop] at hcontra
            simp at hcontra
    · -- expression, rank 4
      intro i hfuel hcontra
      rw [parse_expression_succ] at hcontra
      unfold expressionStep at hcontra
      simp only [exprParsers_comparison, exprParsers_exprLoop] at hcontra
      have hsu := ihc i (by unfold need at hfuel ⊢; omega)
      cases hsub : parse_comparison_expression fuel i toks with
      | error e2 =>
        simp only [hsub, Except.error.injEq] at hcontra
        exact (noFuel_of_error hsu hsub) hcontra
      | ok pr =>
        cases pr with
        | mk lOpt j1 =>
          simp only [hsub] at hcontra
          have hj1 := pc i lOpt j1 hsub
          have hlu := ihel lOpt none j1 (by unfold need at hfuel ⊢; omega)
          cases hloop : expression_loop fuel toks lOpt none j1 with
          | error e2 =>
            simp only [hloop, Except.error.injEq] at hcontra
            exact (noFuel_of_error hlu hloop) hcontra
          | ok pr2 =>
            cases pr2 with
            | mk expr2 k =>
              simp only [hloop] at hcontra
              cases expr2 with
              | none =>
                cases lOpt with
                | none => simp at hcontra
                | some l => simp at hcontra
              | some e2 => simp at hcontra

/-- A successful variable declaration strictly advances the position (past
the consumed `;`). -/
theorem parse_variable_declaration_progress {fuel i : Nat} {toks : List Token}
    {sc : List Scope} {stmt : Statement} {j : Nat} {sc2 : List Scope}
    (h : parse_variable_declaration fuel i toks sc = .ok (stmt, j, sc2)) : i < j := by
  cases fuel with
  | zero => simp [parse_variable_declaration] at h
  | succ fuel =>
    unfold parse_variable_declaration at h
    rw [tokenValue_empty_identifier] at h
    cases hname : expect (i + 1) toks (.identifier ("")) with
    | error e => simp [hname] at h
    | ok nameTok =>
      simp only [hname] at h
      cases hlast : sc.getLast? with
      | none => simp [hlast] at h
      | some top =>
        simp only [hlast] at h
        cases hany : top.vars.any (fun v => v.1 == nameTok.value.as_string) with
        | true => simp [hany] at h
        | false =>
          simp only [hany, Bool.false_eq_true, if_false] at h
          cases hc : expect (i + 2) toks (.punctuation (":")) with
          | error e => simp [hc] at h
          | ok c1 =>
            simp only [hc] at h
            cases hti : expect (i + 3) toks (.identifier ("")) with
            | error e => simp [hti] at h
            | ok type_ident =>
              simp only [hti] at h
              cases hpt : parse_type type_ident with
              | error e => simp [hpt] at h
              | ok typ =>
                simp only [hpt] at h
                cases heq2 : expect (i + 4) toks (.punctuation ("=")) with
                | error e => simp [heq2] at h
                | ok c2 =>
                  simp only [heq2] at h
                  cases hex : parse_expression fuel (i + 5) toks with
                  | error e => simp [hex] at h
                  | ok pr =>
                    cases pr with
                    | mk expr k =>
                      simp only [hex] at h
                      have hk := (expr_progress fuel toks).2.2.2.2.2.2.2 (i + 5) expr k hex
                      by_cases hty : typ = expr.typ
                      · simp only [hty, eq_self_iff_true, if_true] at h
                        cases hsemi : expect k toks (.punctuation (";")) with
                        | error e => simp [hsemi] at h
                        | ok semi =>
                          simp only [hsemi, Except.ok.injEq, Prod.mk.injEq] at h
                          obtain ⟨g1, g2, g3⟩ := h
                          omega
                      · simp only [if_neg hty] at h
                        cases htk : tokAt toks (i + 5) with
                        | none => simp [htk] at h
                        | some ti => simp [htk] at h

/-- A successful expression statement strictly advances the position (to
the terminator it leaves unconsumed). -/
theorem parse_expression_statement_progress {fuel i : Nat} {toks : List Token}
    {sc : List Scope} {stmt : Statement} {j : Nat} {sc2 : List Scope}
    (h : parse_expression_statement fuel i toks sc = .ok (stmt, j, sc2)) : i < j := by
  cases fuel with
  | zero => simp [parse_expression_statement] at h
  | succ fuel =>
    unfold parse_expression_statement at h
    cases h1 : parse_expression fuel i toks with
    | error e => simp [h1] at h
    | ok pr =>
      cases pr with
      | mk expr j2 =>
        simp only [h1] at h
        have := (expr_progress fuel toks).2.2.2.2.2.2.2 i expr j2 h1
        cases h2 : expect j2 toks (.punctuation (";")) with
        | error e => simp [h2] at h
        | ok semi =>
          simp only [h2, Except.ok.injEq, Prod.mk.injEq] at h
          obtain ⟨g1, g2, g3⟩ := h
          omega

/-- A successful identifier-led statement strictly advances the position. -/
theorem parse_identifier_progress {fuel i : Nat} {toks : List Token} {sc : List Scope}
    {stmt : Statement} {j : Nat} {sc2 : List Scope}
    (h : parse_identifier fuel i toks sc = .ok (stmt, j, sc2)) : i < j := by
  cases fuel with
  | zero => simp [parse_identifier] at h
  | succ fuel =>
    unfold parse_identifier at h
    cases htok : tokAt toks i with
    | none => simp [htok] at h
    | some t =>
      simp only [htok] at h
      cases hv : t.value with
      | identifier s =>
        simp only [hv] at h
        by_cases hfn : s = "fn"
        · rw [if_pos hfn] at h
          exact (parse_function_declaration_no_ok h).elim
        · rw [if_neg hfn] at h
          by_cases hlet : s = "let"
          · rw [if_pos hlet] at h
            exact parse_variable_declaration_progress h
          · rw [if_neg hlet] at h
            simp at h
      | string s => simp [hv] at h
      | integer n => simp [hv] at h
      | float s => simp [hv] at h
      | bool b => simp [hv] at h
      | arithmetic s => simp [hv] at h
      | punctuation s => simp [hv] at h
      | nested => simp [hv] at h

/-- A successful statement parse strictly advances the position. -/
theorem parse_statement_progress {fuel i : Nat} {toks : List Token} {sc : List Scope}
    {stmt : Statement} {j : Nat} {sc2 : List Scope}
    (h : parse_statement fuel i toks sc = .ok (stmt, j, sc2)) : i < j := by
  cases fuel with
  | zero => simp [parse_statement] at h
  | succ fuel =>
    unfold parse_statement at h
    cases htok : tokAt toks i with
    | none => simp [htok] at h
    | some t =>
      simp only [htok] at h
      cases hv : t.value with
      | identifier s =>
        simp only [hv] at h
        exact parse_identifier_progress h
      | string s => simp only [hv] at h; exact parse_expression_statement_progress h
      | integer n => simp only [hv] at h; exact parse_expression_statement_progress h
      | float s => simp only [hv] at h; exact parse_expression_statement_progress h
      | bool b => simp only [hv] at h; exact parse_expression_statement_progress h
      | arithmetic s => simp only [hv] at h; exact parse_expression_statement_progress h
      | punctuation s => simp only [hv] at h; exact parse_expression_statement_progress h
      | nested => simp only [hv] at h; exact parse_expression_statement_progress h

/-- Fuel sufficiency of `parse_expression_statement`. -/
theorem parse_expression_statement_sufficient (fuel i : Nat) (toks : List Token)
    (sc : List Scope) (hfuel : need toks.length i 5 ≤ fuel) :
    NoFuel (parse_expression_statement fuel i toks sc) := by
  cases fuel with
  | zero => exfalso; unfold need at hfuel; omega
  | succ fuel =>
    intro hcontra
    unfold parse_expression_statement at hcontra
    have hsu := (expr_sufficient fuel toks).2.2.2.2.2.2.2 i
      (by unfold need at hfuel ⊢; omega)
    cases h1 : parse_expression fuel i toks with
    | error e =>
      simp only [h1, Except.error.injEq] at hcontra
      exact (noFuel_of_error hsu h1) hcontra
    | ok pr =>
      cases pr with
      | mk expr j2 =>
        simp only [h1] at hcontra
        cases h2 : expect j2 toks (.punctuation (";")) with
        | error e =>
          simp only [h2, Except.error.injEq] at hcontra
          exact (expect_not_fuelOut h2) hcontra
        | ok semi => simp [h2] at hcontra

/-- Fuel sufficiency of `parse_variable_declaration`. -/
theorem parse_variable_declaration_sufficient (fuel i : Nat) (toks : List Token)
    (sc : List Scope) (hfuel : need toks.length i 5 ≤ fuel) :
    NoFuel (parse_variable_declaration fuel i toks sc) := by
  cases fuel with
  | zero => exfalso; unfold need at hfuel; omega
  | succ fuel =>
    intro hcontra
    unfold parse_variable_declaration at hcontra
    rw [tokenValue_empty_identifier] at hcontra
    cases hname : expect (i + 1) toks (.identifier ("")) with
    | error e =>
      simp only [hname, Except.error.injEq] at hcontra
      exact (expect_not_fuelOut hname) hcontra
    | ok nameTok =>
      simp only [hname] at hcontra
      cases hlast : sc.getLast? with
      | none => simp [hlast] at hcontra
      | some top =>
        simp only [hlast] at hcontra
        cases hany : top.vars.any (fun v => v.1 == nameTok.value.as_string) with
        | true => simp [hany] at hcontra
        | false =>
          simp only [hany, Bool.false_eq_true, if_false] at hcontra
          cases hc : expect (i + 2) toks (.punctuation (":")) with
          | error e =>
            simp only [hc, Except.error.injEq] at hcontra
            exact (expect_not_fuelOut hc) hcontra
          | ok c1 =>
            simp only [hc] at hcontra
            cases hti : expect (i + 3) toks (.identifier ("")) with
            | error e =>
              simp only [hti, Except.error.injEq] at hcontra
              exact (expect_not_fuelOut hti) hcontra
            | ok type_ident =>
              simp only [hti] at hcontra
              cases hpt : parse_type type_ident with
              | error e =>
                simp only [hpt, Except.error.injEq] at hcontra
                exact (parse_type_not_fuelOut hpt) hcontra
              | ok typ =>
                simp only [hpt] at hcontra
                cases heq2 : expect (i + 4) toks (.punctuation ("=")) with
                | error e =>
                  simp only [heq2, Except.error.injEq] at hcontra
                  exact (expect_not_fuelOut heq2) hcontra
                | ok c2 =>
                  simp only [heq2] at hcontra
                  have hsu := (expr_sufficient fuel toks).2.2.2.2.2.2.2 (i + 5)
                    (by unfold need at hfuel ⊢; omega)
                  cases hex : parse_expression fuel (i + 5) toks with
                  | error e =>
                    simp only [hex, Except.error.injEq] at hcontra
                    exact (noFuel_of_error hsu hex) hcontra
                  | ok pr =>
                    cases pr with
                    | mk expr k =>
                      simp only [hex] at hcontra
                      by_cases hty : typ = expr.typ
                      · simp only [hty, eq_self_iff_true, if_true] at hcontra
                        cases hsemi : expect k toks (.punctuation (";")) with
                        | error e =>
                          simp only [hsemi, Except.error.injEq] at hcontra
                          exact (expect_not_fuelOut hsemi) hcontra
                        | ok semi => simp [hsemi] at hcontra
                      · simp only [if_neg hty] at hcontra
                        cases htk : tokAt toks (i + 5) with
                        | none => simp [htk] at hcontra
                        | some ti => simp [htk] at hcontra

/-- Fuel sufficiency of `parse_function_declaration`. -/
theorem parse_function_declaration_sufficient (fuel i : Nat) (toks : List Token)
    (sc : List Scope) (hfuel : need toks.length i 5 ≤ fuel) :
    NoFuel (parse_function_declaration fuel i toks sc) := by
  cases fuel with
  | zero => exfalso; unfold need at hfuel; omega
  | succ fuel =>
    intro hcontra
    unfold parse_function_declaration at hcontra
    rw [tokenValue_empty_identifier] at hcontra
    cases hname : expect (i + 1) toks (.identifier ("")) with
    | error e =>
      simp only [hname, Except.error.injEq] at hcontra
      exact (expect_not_fuelOut hname) hcontra
    | ok t1 =>
      simp only [hname] at hcontra
      cases hp : expect (i + 2) toks (.punctuation ("(")) with
      | error e =>
        simp only [hp, Except.error.injEq] at hcontra
        exact (expect_not_fuelOut hp) hcontra
      | ok t2 => simp [hp] at hcontra

/-- Fuel sufficiency of `parse_identifier`. -/
theorem parse_identifier_sufficient (fuel i : Nat) (toks : List Token)
    (sc : List Scope) (hfuel : need toks.length i 6 ≤ fuel) :
    NoFuel (parse_identifier fuel i toks sc) := by
  cases fuel with
  | zero => exfalso; unfold need at hfuel; omega
  | succ fuel =>
    intro hcontra
    unfold parse_identifier at hcontra
    cases htok : tokAt toks i with
    | none => simp [htok] at hcontra
    | some t =>
      simp only [htok] at hcontra
      cases hv : t.value with
      | identifier s =>
        simp only [hv] at hcontra
        by_cases hfn : s = "fn"
        · rw [if_pos hfn] at hcontra
          exact parse_function_declaration_sufficient fuel i toks sc
            (by unfold need at hfuel ⊢; omega) hcontra
        · rw [if_neg hfn] at hcontra
          by_cases hlet : s = "let"
          · rw [if_pos hlet] at hcontra
            exact parse_variable_declaration_sufficient fuel i toks sc
              (by unfold need at hfuel ⊢; omega) hcontra
          · rw [if_neg hlet] at hcontra
            simp at hcontra
      | string s => simp [hv] at hcontra
      | integer n => simp [hv] at hcontra
      | float s => simp [hv] at hcontra
      | bool b => simp [hv] at hcontra
      | arithmetic s => simp [hv] at hcontra
      | punctuation s => simp [hv] at hcontra
      | nested => simp [hv] at hcontra

/-- Fuel sufficiency of `parse_statement`. -/
theorem parse_statement_sufficient (fuel i : Nat) (toks : List Token)
    (sc : List Scope) (hfuel : need toks.length i 7 ≤ fuel) :
    NoFuel (parse_statement fuel i toks sc) := by
  cases fuel with
  | zero => exfalso; unfold need at hfuel; omega
  | succ fuel =>
    intro hcontra
    unfold parse_statement at hcontra
    cases htok : tokAt toks i with
    | none => simp [htok] at hcontra
    | some t =>
      simp only [htok] at hcontra
      cases hv : t.value with
      | identifier s =>
        simp only [hv] at hcontra
        exact parse_identifier_sufficient fuel i toks sc
          (by unfold need at hfuel ⊢; omega) hcontra
      | string s =>
        simp only [hv] at hcontra
        exact parse_expression_statement_sufficient fuel i toks sc
          (by unfold need at hfuel ⊢; omega) hcontra
      | integer n =>
        simp only [hv] at hcontra
        exact parse_expression_statement_sufficient fuel i toks sc
          (by unfold need at hfuel ⊢; omega) hcontra
      | float s =>
        simp only [hv] at hcontra
        exact parse_expression_statement_sufficient fuel i toks sc
          (by unfold need at hfuel ⊢; omega) hcontra
      | bool b =>
        simp only [hv] at hcontra
        exact parse_expression_statement_sufficient fuel i toks sc
          (by unfold need at hfuel ⊢; omega) hcontra
      | arithmetic s =>
        simp only [hv] at hcontra
        exact parse_expression_statement_sufficient fuel i toks sc
          (by unfold need at hfuel ⊢; omega) hcontra
      | punctuation s =>
        simp only [hv] at hcontra
        exact parse_expression_statement_sufficient fuel i toks sc
          (by unfold need at hfuel ⊢; omega) hcontra
      | nested =>
        simp only [hv] at hcontra
        exact parse_expression_statement_sufficient fuel i toks sc
          (by unfold need at hfuel ⊢; omega) hcontra

/-- Fuel sufficiency of the driver loop: each statement parse strictly
advances the position, so the remaining stream length bounds the number of
iterations. -/
theorem parse_loop_sufficient : ∀ (fuel : Nat) (toks : List Token) (i : Nat)
    (sc : List Scope) (ast : List Statement),
    need toks.length i 8 ≤ fuel → NoFuel (parse_loop fuel i toks sc ast) := by
  intro fuel
  induction fuel with
  | zero =>
    intro toks i sc ast hfuel
    exfalso
    unfold need at hfuel
    omega
  | succ fuel ih =>
    intro toks i sc ast hfuel hcontra
    unfold parse_loop at hcontra
    by_cases hlt : i < toks.length
    · rw [if_pos hlt] at hcontra
      have hss := parse_statement_sufficient fuel i toks sc
        (by unfold need at hfuel ⊢; omega)
      cases hsub : parse_statement fuel i toks sc with
      | error e =>
        simp only [hsub, Except.error.injEq] at hcontra
        exact (noFuel_of_error hss hsub) hcontra
      | ok pr =>
        cases pr with
        | mk stmt rest =>
          cases rest with
          | mk j sc3 =>
            simp only [hsub] at hcontra
            have hj := parse_statement_progress hsub
            exact ih toks j sc3 (ast ++ [stmt])
              (by unfold need at hfuel ⊢; omega) hcontra
    · rw [if_neg hlt] at hcontra
      simp at hcontra

/-- C9: for every finite token stream, the top-level parse terminates with
a statement list or an error: every statement parse and every
expression-layer success strictly advances the stream position, so the
stream length bounds the whole parse and the embedding fuel — set from the
stream length — is never exhausted. -/
theorem c9_termination (toks : List Token) :
    NoFuel (parse toks) ∧
    (∀ fuel i sc stmt j sc2,
      parse_statement fuel i toks sc = .ok (stmt, j, sc2) → i < j) ∧
    (∀ fuel i e j, parse_expression fuel i toks = .ok (e, j) → i < j) := by
  refine ⟨?_, ?_, ?_⟩
  · unfold parse
    exact parse_loop_sufficient (9 * (toks.length + 2)) toks 0 [⟨[], []⟩] []
      (by unfold need; omega)
  · intro fuel i sc stmt j sc2 h
    exact parse_statement_progress h
  · intro fuel i e j h
    exact (expr_progress fuel toks).2.2.2.2.2.2.2 i e j h

/-- Witness of c9_termination: the statement parse of `let x : int = 1 ;`
advances the position from 0 to 7, and the whole parse of that program
never exhausts its fuel. -/
theorem c9_termination_witness :
    (0 : Nat) < 7 ∧ NoFuel (parse toksLet1) :=
  ⟨(c9_termination toksLet1).2.1 80 0 [⟨[], []⟩] letStmt1 7
      [⟨[(("x" : String), ⟨false, ValueType.integer⟩)], []⟩] (by rfl),
    (c9_termination toksLet1).1⟩
